import Mathlib

/-!
# ezz_mesh: IEEE 1905 CMDU codec and transport context

A shallow embedding of `src/src/ieee1905/ieee1905.c` (with the constants and
structures of `src/include/ieee1905.h`) and the properties proved about it.

Conventions of the embedding

* C unsigned integers (`uint8_t`, `uint16_t`, `size_t`) are natural numbers; the
  range of the C type is a hypothesis (`Cmdu.typed`) wherever a theorem needs it.
* The `int` result of `cmdu_pack` is an `Option` (`none` is the `-1` return), that
  of `cmdu_unpack` a `Ret`; the other return codes are integers.
* A destination buffer is observed through the list of stores made into it
  (`index, byte` pairs, in program order); `Mem.replay` plays the stores back on
  the previous contents of the memory.
* `struct i1905_cmdu.tlvs` is the list of the slots below `tlv_count`;
  `struct i1905_tlv.value` is the list of its bytes.  A slot or byte that the
  list does not hold reads as zero (`List.getD`).
-/

namespace Ieee1905

/-! ## Constants (`ieee1905.h`) -/

def I1905_MAX_TLVS : Nat := 16
def I1905_MAX_TLV_VALUE : Nat := 1024
def I1905_MAX_FRAME_SIZE : Nat := 1600

def I1905_MSG_TOPOLOGY_DISCOVERY : Nat := 0x0000
def I1905_MSG_TOPOLOGY_NOTIFICATION : Nat := 0x0001
def I1905_MSG_TOPOLOGY_QUERY : Nat := 0x0002
def I1905_MSG_TOPOLOGY_RESPONSE : Nat := 0x0003
def I1905_MSG_AP_AUTOCONFIG_SEARCH : Nat := 0x0006
def I1905_MSG_AP_AUTOCONFIG_RESPONSE : Nat := 0x0007
def I1905_MSG_AP_AUTOCONFIG_WSC : Nat := 0x0008

def I1905_TLV_END_OF_MESSAGE : Nat := 0x00
def I1905_TLV_AL_MAC : Nat := 0x01
def I1905_TLV_MAC_ADDR : Nat := 0x02
def I1905_TLV_DEVICE_INFO : Nat := 0x09
def I1905_TLV_WSC : Nat := 0x0A
def I1905_TLV_VENDOR : Nat := 0x0B

/-- The two roles of `i1905_role`. -/
inductive Role where
  | controller
  | agent
  deriving DecidableEq, Repr

/-! ## Data model (`ieee1905.h`) -/

/-- The record `struct i1905_tlv`: `type` is a `uint8_t`, `len` a `uint16_t`,
`value` the bytes of `uint8_t value[I1905_MAX_TLV_VALUE]`. -/
structure Tlv where
  type : Nat
  len : Nat
  value : List Nat
  deriving DecidableEq, Repr, Inhabited

/-- The record `struct i1905_cmdu`; `tlvs` lists the slots of the array
`tlvs[I1905_MAX_TLVS]` from slot 0 on. -/
structure Cmdu where
  message_type : Nat
  message_id : Nat
  fragment_id : Nat
  last_fragment : Bool
  tlv_count : Nat
  tlvs : List Tlv
  deriving DecidableEq, Repr, Inhabited

/-- The record `struct i1905_ctx` of `ieee1905.c`.  The callback pointer `cb` is
`none` when it is `NULL`; `user_ctx` is the opaque handler state. -/
structure Ctx where
  sock : Int
  port : Nat
  role : Role
  al_mac : List Nat
  cb : Option Nat
  user_ctx : Nat
  next_message_id : Nat
  deriving DecidableEq, Repr

/-- The C types of the fields of a CMDU and of its first `tlv_count` slots:
`uint16_t` ids, `uint8_t` fragment id and TLV type, `uint16_t` TLV length. -/
def Cmdu.typed (c : Cmdu) : Prop :=
  c.message_type < 65536 ∧ c.message_id < 65536 ∧ c.fragment_id < 256 ∧
  ∀ t ∈ c.tlvs.take c.tlv_count, t.type < 256 ∧ t.len < 65536

/-- The bounds of the data model on a CMDU handed to the encoder: at most
`I1905_MAX_TLVS` slots in use, all of them present, and every one of them with
`len` at most `I1905_MAX_TLV_VALUE` bytes, all held by `value`. -/
def Cmdu.bounded (c : Cmdu) : Prop :=
  c.tlv_count ≤ I1905_MAX_TLVS ∧ c.tlv_count ≤ c.tlvs.length ∧
  ∀ t ∈ c.tlvs.take c.tlv_count, t.len ≤ I1905_MAX_TLV_VALUE ∧ t.len ≤ t.value.length

instance (c : Cmdu) : Decidable c.typed := by
  unfold Cmdu.typed; infer_instance

instance (c : Cmdu) : Decidable c.bounded := by
  unfold Cmdu.bounded; infer_instance

/-! ## Byte helpers -/

/-- The C expression `(x >> 8) & 0xFF`. -/
def hi8 (x : Nat) : Nat := (x >>> 8) &&& 0xFF

/-- The C expression `x & 0xFF`. -/
def lo8 (x : Nat) : Nat := x &&& 0xFF

/-- The C expression `(hi << 8) | lo` on two bytes. -/
def be16 (hi lo : Nat) : Nat := (hi <<< 8) ||| lo

/-- The `n` bytes that `memcpy(dst, src, n)` reads from `src`. -/
def bytes_of (src : List Nat) (n : Nat) : List Nat :=
  (List.range n).map (fun k => src.getD k 0)

/-! ## Destination memory and stores -/

/-- Contents of a byte buffer, indexed from its first byte. -/
abbrev Mem := Nat → Nat

/-- One store `buf[i] = v`. -/
def Mem.store (m : Mem) (i v : Nat) : Mem := fun k => if k = i then v else m k

/-- The memory after a sequence of stores, first store first. -/
def Mem.replay (m : Mem) : List (Nat × Nat) → Mem
  | [] => m
  | (i, v) :: ws => Mem.replay (m.store i v) ws

/-- The first `n` bytes of a buffer. -/
def Mem.first (m : Mem) (n : Nat) : List Nat := (List.range n).map m

/-! ## `cmdu_pack` -/

/-- State of `cmdu_pack`: the cursor `pos` and the stores made into `buf` so far. -/
structure PackSt where
  pos : Nat
  log : List (Nat × Nat)
  deriving DecidableEq, Repr

/-- The statement `buf[pos++] = v`. -/
def PackSt.put (s : PackSt) (v : Nat) : PackSt :=
  { pos := s.pos + 1, log := s.log ++ [(s.pos, v)] }

/-- The statement `memcpy(&buf[pos], src, n)`; the cursor is not moved. -/
def PackSt.memcpy (s : PackSt) (src : List Nat) (n : Nat) : PackSt :=
  { s with log := s.log ++ (List.range n).map (fun k => (s.pos + k, src.getD k 0)) }

/-- The `for` loop of `cmdu_pack`, with `n` iterations left and loop index `i`.
The flag is `false` when the loop left through `return -1`. -/
def pack_tlvs (tlvs : List Tlv) (buf_len : Nat) : Nat → Nat → PackSt → Bool × PackSt
  | 0, _, s => (true, s)
  | n + 1, i, s =>
    let t := tlvs.getD i default
    if s.pos + 3 + t.len > buf_len then (false, s)
    else
      let s := s.put t.type
      let s := s.put (hi8 t.len)
      let s := s.put (lo8 t.len)
      let s := s.memcpy t.value t.len
      let s := { s with pos := s.pos + t.len }
      pack_tlvs tlvs buf_len n (i + 1) s

/-- The function `cmdu_pack(cmdu, buf, buf_len)`: the return value (`none` for
`-1`, `some pos` for the byte length) and the stores made into `buf`. -/
def cmdu_pack (cmdu : Cmdu) (buf_len : Nat) : Option Nat × List (Nat × Nat) :=
  let s : PackSt := { pos := 0, log := [] }
  if buf_len < 6 then (none, s.log)
  else
    let s := s.put 0x00
    let s := s.put (hi8 cmdu.message_type)
    let s := s.put (lo8 cmdu.message_type)
    let s := s.put (hi8 cmdu.message_id)
    let s := s.put (lo8 cmdu.message_id)
    let s := s.put cmdu.fragment_id
    let s := s.put (if cmdu.last_fragment then 0x80 else 0x00)
    match pack_tlvs cmdu.tlvs buf_len cmdu.tlv_count 0 s with
    | (false, s) => (none, s.log)
    | (true, s) =>
      if s.pos + 3 > buf_len then (none, s.log)
      else
        let s := s.put I1905_TLV_END_OF_MESSAGE
        let s := s.put 0x00
        let s := s.put 0x00
        (some s.pos, s.log)

/-! ## `cmdu_unpack` -/

/-- Outcome of the decoder: `ok out` is `return 0` with the decoded `*out`,
`err` is `return -1`, and `stuck` marks a loop that used up the iteration
budget of the embedding (shown below never to happen). -/
inductive Ret (α : Type) where
  | ok : α → Ret α
  | err : Ret α
  | stuck : Ret α
  deriving DecidableEq, Repr

/-- The `while (pos + 3 <= len)` loop of `cmdu_unpack` on the buffer `buf` of
`len = buf.length` bytes.  `out.tlvs` holds the slots written so far, so the
store into slot `out->tlv_count++` appends; the `value` of the new slot holds the
`tlen` bytes that `memcpy` copies (the code writes no other byte of it). -/
def unpack_loop (buf : List Nat) : Nat → Nat → Cmdu → Ret Cmdu
  | 0, _, _ => Ret.stuck
  | fuel + 1, pos, out =>
    if pos + 3 ≤ buf.length then
      let type := buf.getD pos 0
      let tlen := be16 (buf.getD (pos + 1) 0) (buf.getD (pos + 2) 0)
      let pos := pos + 3
      if type = I1905_TLV_END_OF_MESSAGE then Ret.ok out
      else if out.tlv_count ≥ I1905_MAX_TLVS then Ret.err
      else if tlen > I1905_MAX_TLV_VALUE then Ret.err
      else if pos + tlen > buf.length then Ret.err
      else
        let t : Tlv := { type := type, len := tlen, value := (buf.drop pos).take tlen }
        unpack_loop buf fuel (pos + tlen)
          { out with tlv_count := out.tlv_count + 1, tlvs := out.tlvs ++ [t] }
    else Ret.ok out

/-- The header part of `cmdu_unpack`: the reserved byte 0 is skipped, the four
header fields are read from bytes 1 to 6, and `tlv_count` is set to 0. -/
def unpack_header (buf : List Nat) : Cmdu :=
  { message_type := be16 (buf.getD 1 0) (buf.getD 2 0)
    message_id := be16 (buf.getD 3 0) (buf.getD 4 0)
    fragment_id := buf.getD 5 0
    last_fragment := (buf.getD 6 0 &&& 0x80) != 0
    tlv_count := 0
    tlvs := [] }

/-- The function `cmdu_unpack(buf, len, out)` on a buffer of `len = buf.length`
bytes.  Every iteration of the loop moves the cursor by at least 3, so
`buf.length` iterations are more than the loop can make. -/
def cmdu_unpack (buf : List Nat) : Ret Cmdu :=
  if buf.length < 7 then Ret.err
  else unpack_loop buf buf.length 7 (unpack_header buf)

/-! ## `cmdu_unpack` with checked accesses

The same function once more, with every access to memory made explicit: a read
of `buf`, the choice of a slot of `out->tlvs`, a store into `value`.  An access
outside its array yields `none`. -/

/-- The read `buf[i]` of a buffer of `buf.length` bytes; `none` outside of it. -/
def rd (buf : List Nat) (i : Nat) : Option Nat :=
  if i < buf.length then some (buf.getD i 0) else none

/-- The slot `out->tlvs[i]` of the array of `I1905_MAX_TLVS` slots; `none` outside
of it. -/
def slot_chk (i : Nat) : Option Nat :=
  if i < I1905_MAX_TLVS then some i else none

/-- The call `memcpy(t->value, &buf[pos], tlen)` from offset `k` on, `n` bytes to go:
byte `k` is read from `buf[pos + k]` and stored into `value[k]`, an array of
`I1905_MAX_TLV_VALUE` bytes.  Returns the bytes stored. -/
def memcpy_chk (buf : List Nat) (pos : Nat) : Nat → Nat → Option (List Nat)
  | _, 0 => some []
  | k, n + 1 =>
    if k < I1905_MAX_TLV_VALUE then
      match rd buf (pos + k), memcpy_chk buf pos (k + 1) n with
      | some b, some bs => some (b :: bs)
      | _, _ => none
    else none

/-- The loop of `cmdu_unpack` with checked accesses. -/
def unpack_loop_chk (buf : List Nat) : Nat → Nat → Cmdu → Option (Ret Cmdu)
  | 0, _, _ => some Ret.stuck
  | fuel + 1, pos, out =>
    if pos + 3 ≤ buf.length then
      match rd buf pos, rd buf (pos + 1), rd buf (pos + 2) with
      | some type, some hi, some lo =>
        let tlen := be16 hi lo
        let pos := pos + 3
        if type = I1905_TLV_END_OF_MESSAGE then some (Ret.ok out)
        else if out.tlv_count ≥ I1905_MAX_TLVS then some Ret.err
        else if tlen > I1905_MAX_TLV_VALUE then some Ret.err
        else if pos + tlen > buf.length then some Ret.err
        else
          match slot_chk out.tlv_count, memcpy_chk buf pos 0 tlen with
          | some _, some value =>
            let t : Tlv := { type := type, len := tlen, value := value }
            unpack_loop_chk buf fuel (pos + tlen)
              { out with tlv_count := out.tlv_count + 1, tlvs := out.tlvs ++ [t] }
          | _, _ => none
      | _, _, _ => none
    else some (Ret.ok out)

/-- The header part of `cmdu_unpack` with checked reads of the bytes 1 to 6. -/
def unpack_header_chk (buf : List Nat) : Option Cmdu :=
  match rd buf 1, rd buf 2, rd buf 3, rd buf 4, rd buf 5, rd buf 6 with
  | some b1, some b2, some b3, some b4, some b5, some b6 =>
    some { message_type := be16 b1 b2
           message_id := be16 b3 b4
           fragment_id := b5
           last_fragment := (b6 &&& 0x80) != 0
           tlv_count := 0
           tlvs := [] }
  | _, _, _, _, _, _ => none

/-- The function `cmdu_unpack(buf, len, out)` with checked accesses: `none` when
some access leaves its array, the outcome of the call otherwise. -/
def cmdu_unpack_chk (buf : List Nat) : Option (Ret Cmdu) :=
  if buf.length < 7 then some Ret.err
  else
    match unpack_header_chk buf with
    | some out => unpack_loop_chk buf buf.length 7 out
    | none => none

/-! ## Message ids and `send_cmdu` -/

/-- The function `next_id(ctx)`: the `uint16_t` counter is incremented, wraps
from 65535 to 0, and 0 is replaced by 1.  Returns the id and the new context. -/
def next_id (ctx : Ctx) : Nat × Ctx :=
  let ctx := { ctx with next_message_id := (ctx.next_message_id + 1) % 65536 }
  let ctx := if ctx.next_message_id = 0 then { ctx with next_message_id := 1 } else ctx
  (ctx.next_message_id, ctx)

/-- What `send_cmdu` takes from its surroundings: whether `inet_aton` parses
`dst_ip`, the value `sendto` returns for a datagram, and the contents of the
local array `frame` before `cmdu_pack` stores into it. -/
structure SendEnv where
  inet_aton_ok : Bool
  sendto : List Nat → Int
  frame0 : Mem

/-- What `send_cmdu` leaves behind: its return value, the context, the CMDU
(whose `message_id` it assigns) and the datagrams handed to `sendto`. -/
structure SendOut where
  ret : Int
  ctx : Ctx
  cmdu : Cmdu
  sent : List (List Nat)

/-- The function `send_cmdu(ctx, dst_ip, dst_port, cmdu)`. -/
def send_cmdu (ctx : Ctx) (env : SendEnv) (cmdu : Cmdu) : SendOut :=
  let r := next_id ctx
  let ctx := r.2
  let cmdu := { cmdu with message_id := r.1 }
  match cmdu_pack cmdu I1905_MAX_FRAME_SIZE with
  | (none, _) => { ret := -1, ctx := ctx, cmdu := cmdu, sent := [] }
  | (some len, log) =>
    if env.inet_aton_ok = false then { ret := -1, ctx := ctx, cmdu := cmdu, sent := [] }
    else
      let dgram := (env.frame0.replay log).first len
      let sent := env.sendto dgram
      { ret := if sent = (len : Int) then 0 else -1, ctx := ctx, cmdu := cmdu, sent := [dgram] }

/-! ## TLV helpers and message builders -/

/-- The function `tlv_append(cmdu, src)`: the slot `tlvs[tlv_count]` receives a
copy of `*src`; `cmdu.tlvs` holds the slots below `tlv_count`. -/
def tlv_append (cmdu : Cmdu) (src : Tlv) : Int × Cmdu :=
  if cmdu.tlv_count ≥ I1905_MAX_TLVS then (-1, cmdu)
  else (0, { cmdu with tlvs := cmdu.tlvs ++ [src], tlv_count := cmdu.tlv_count + 1 })

/-- The function `i1905_tlv_set_wsc(tlv, payload, len)` for a non-null `tlv`;
`payload` is `none` for a `NULL` pointer.  Returns the return code and `*tlv`. -/
def i1905_tlv_set_wsc (tlv : Tlv) (payload : Option (List Nat)) (len : Nat) : Int × Tlv :=
  match payload with
  | none => (-1, tlv)
  | some p =>
    if len > I1905_MAX_TLV_VALUE then (-1, tlv)
    else (0, { type := I1905_TLV_WSC, len := len % 65536,
               value := bytes_of p len ++ tlv.value.drop len })

/-- The function `i1905_tlv_set_mac(tlv, type, mac)` for a non-null `tlv`; `mac` is
`none` for a `NULL` pointer.  Returns the return code and `*tlv`. -/
def i1905_tlv_set_mac (tlv : Tlv) (type : Nat) (mac : Option (List Nat)) : Int × Tlv :=
  match mac with
  | none => (-1, tlv)
  | some m => (0, { type := type, len := 6, value := bytes_of m 6 ++ tlv.value.drop 6 })

/-- The function `i1905_tlv_set_device_info(tlv, al_mac, iface_mac)` for a non-null
`tlv`.  The cursor `p` walks over `tlv->value`: six bytes of `al_mac`, the byte 1,
six bytes of `iface_mac`, two bytes 0; the bytes from offset 15 on stay. -/
def i1905_tlv_set_device_info (tlv : Tlv) (al_mac iface_mac : Option (List Nat)) : Int × Tlv :=
  match al_mac, iface_mac with
  | some a, some m =>
    (0, { type := I1905_TLV_DEVICE_INFO, len := 1 + 6 + 6 + 2,
          value := bytes_of a 6 ++ [1] ++ bytes_of m 6 ++ [0x00, 0x00] ++ tlv.value.drop 15 })
  | _, _ => (-1, tlv)

/-- The function `build_cmdu_common(cmdu, type)`: the whole structure is zeroed
(`memset`), then the message type and the fragment fields are set. -/
def build_cmdu_common (type : Nat) : Cmdu :=
  { message_type := type, message_id := 0, fragment_id := 0, last_fragment := true,
    tlv_count := 0, tlvs := [] }

/-- The function `i1905_send_ap_autoconfig_wsc(ctx, dst_ip, dst_port, wsc, wsc_len)`.
`t0` is the content of the local `struct i1905_tlv t` before the call of
`i1905_tlv_set_wsc`, whose return value the function does not look at. -/
def i1905_send_ap_autoconfig_wsc (ctx : Ctx) (env : SendEnv)
    (wsc : Option (List Nat)) (wsc_len : Nat) (t0 : Tlv) : SendOut :=
  let cmdu := build_cmdu_common I1905_MSG_AP_AUTOCONFIG_WSC
  let t := (i1905_tlv_set_wsc t0 wsc wsc_len).2
  let cmdu := (tlv_append cmdu t).2
  send_cmdu ctx env cmdu

/-- The function `i1905_send_topology_discovery(ctx, dst_ip, dst_port, iface_mac)`.
`al0` and `mac0` are the contents of the locals `al` and `mac` before they are
set; no return value of the helpers is looked at. -/
def i1905_send_topology_discovery (ctx : Ctx) (env : SendEnv)
    (iface_mac : Option (List Nat)) (al0 mac0 : Tlv) : SendOut :=
  let cmdu := build_cmdu_common I1905_MSG_TOPOLOGY_DISCOVERY
  let al := (i1905_tlv_set_mac al0 I1905_TLV_AL_MAC (some ctx.al_mac)).2
  let mac := (i1905_tlv_set_mac mac0 I1905_TLV_MAC_ADDR iface_mac).2
  let cmdu := (tlv_append cmdu al).2
  let cmdu := (tlv_append cmdu mac).2
  send_cmdu ctx env cmdu

/-- The function `i1905_send_topology_query(ctx, dst_ip, dst_port)`. -/
def i1905_send_topology_query (ctx : Ctx) (env : SendEnv) (al0 : Tlv) : SendOut :=
  let cmdu := build_cmdu_common I1905_MSG_TOPOLOGY_QUERY
  let al := (i1905_tlv_set_mac al0 I1905_TLV_AL_MAC (some ctx.al_mac)).2
  let cmdu := (tlv_append cmdu al).2
  send_cmdu ctx env cmdu

/-- The function `i1905_send_topology_response(ctx, dst_ip, dst_port, iface_mac)`. -/
def i1905_send_topology_response (ctx : Ctx) (env : SendEnv)
    (iface_mac : Option (List Nat)) (dev0 : Tlv) : SendOut :=
  let cmdu := build_cmdu_common I1905_MSG_TOPOLOGY_RESPONSE
  let dev := (i1905_tlv_set_device_info dev0 (some ctx.al_mac) iface_mac).2
  let cmdu := (tlv_append cmdu dev).2
  send_cmdu ctx env cmdu

/-- The function `i1905_send_topology_notification(ctx, dst_ip, dst_port, iface_mac)`. -/
def i1905_send_topology_notification (ctx : Ctx) (env : SendEnv)
    (iface_mac : Option (List Nat)) (al0 mac0 : Tlv) : SendOut :=
  let cmdu := build_cmdu_common I1905_MSG_TOPOLOGY_NOTIFICATION
  let al := (i1905_tlv_set_mac al0 I1905_TLV_AL_MAC (some ctx.al_mac)).2
  let mac := (i1905_tlv_set_mac mac0 I1905_TLV_MAC_ADDR iface_mac).2
  let cmdu := (tlv_append cmdu al).2
  let cmdu := (tlv_append cmdu mac).2
  send_cmdu ctx env cmdu

/-- The array `placeholder` of `i1905_send_ap_autoconfig_search`:
`{0x10, 0x47, 0x00, 0x06, '1', '9', '0', '5', 'W', 'S'}`. -/
def wsc_placeholder : List Nat := [0x10, 0x47, 0x00, 0x06, 0x31, 0x39, 0x30, 0x35, 0x57, 0x53]

/-- The function `i1905_send_ap_autoconfig_search(ctx, dst_ip, dst_port, radio_id)`. -/
def i1905_send_ap_autoconfig_search (ctx : Ctx) (env : SendEnv)
    (radio_id : Option (List Nat)) (mac0 wsc0 : Tlv) : SendOut :=
  let cmdu := build_cmdu_common I1905_MSG_AP_AUTOCONFIG_SEARCH
  let mac := (i1905_tlv_set_mac mac0 I1905_TLV_MAC_ADDR radio_id).2
  let wsc := (i1905_tlv_set_wsc wsc0 (some wsc_placeholder) wsc_placeholder.length).2
  let cmdu := (tlv_append cmdu mac).2
  let cmdu := (tlv_append cmdu wsc).2
  send_cmdu ctx env cmdu

/-- The function `i1905_send_ap_autoconfig_response(ctx, dst_ip, dst_port, radio_id)`. -/
def i1905_send_ap_autoconfig_response (ctx : Ctx) (env : SendEnv)
    (radio_id : Option (List Nat)) (mac0 : Tlv) : SendOut :=
  let cmdu := build_cmdu_common I1905_MSG_AP_AUTOCONFIG_RESPONSE
  let mac := (i1905_tlv_set_mac mac0 I1905_TLV_MAC_ADDR radio_id).2
  let cmdu := (tlv_append cmdu mac).2
  send_cmdu ctx env cmdu

/-! ## Inbound: `i1905_handle_readable` and `i1905_poll`

The socket is the queue of its pending datagrams.  `recvfrom` into the local
array `frame` takes the first datagram off the queue and delivers its first
`I1905_MAX_FRAME_SIZE` bytes; on an empty queue the non-blocking socket makes
it fail with `EAGAIN`.  A call of the callback is recorded by the CMDU it is
given; the source address made up by `random_mac` is not represented. -/

/-- What an inbound function leaves behind: its return value, the context, the
datagrams still pending on the socket, and the CMDUs the callback was called
with, in order. -/
structure RecvOut where
  ret : Int
  ctx : Ctx
  queue : List (List Nat)
  calls : List Cmdu
  deriving DecidableEq, Repr

/-- The statement `if (ctx->cb) ctx->cb(&cmdu, src_mac, ctx->user_ctx)`: the calls
it makes. -/
def dispatch (ctx : Ctx) (cmdu : Cmdu) : List Cmdu :=
  if ctx.cb.isSome then [cmdu] else []

/-- The function `i1905_handle_readable(ctx)` for a non-null `ctx`.  One iteration
of `while (1)` per datagram taken off the queue: `got < 0` with `EAGAIN` on the
empty queue and `got == 0` on an empty datagram return 0, a frame that does not
decode is dropped (`continue`), any other frame is dispatched. -/
def i1905_handle_readable (ctx : Ctx) : List (List Nat) → RecvOut
  | [] => { ret := 0, ctx := ctx, queue := [], calls := [] }
  | d :: rest =>
    let frame := d.take I1905_MAX_FRAME_SIZE
    let got : Int := frame.length
    if got = 0 then { ret := 0, ctx := ctx, queue := rest, calls := [] }
    else
      match cmdu_unpack frame with
      | Ret.ok cmdu =>
        let r := i1905_handle_readable ctx rest
        { r with calls := dispatch ctx cmdu ++ r.calls }
      | _ => i1905_handle_readable ctx rest

/-- The function `i1905_poll(ctx, timeout_ms)`; `select_rv` is the value `select`
returns (0 on a timeout, negative on an error, positive when the socket is
readable). -/
def i1905_poll (ctx : Ctx) (select_rv : Int) (queue : List (List Nat)) : RecvOut :=
  if select_rv ≤ 0 then { ret := select_rv, ctx := ctx, queue := queue, calls := [] }
  else
    match queue with
    | [] => { ret := -1, ctx := ctx, queue := [], calls := [] }
    | d :: rest =>
      let frame := d.take I1905_MAX_FRAME_SIZE
      let got : Int := frame.length
      if got ≤ 0 then { ret := -1, ctx := ctx, queue := rest, calls := [] }
      else
        match cmdu_unpack frame with
        | Ret.ok cmdu => { ret := 1, ctx := ctx, queue := rest, calls := dispatch ctx cmdu }
        | _ => { ret := -1, ctx := ctx, queue := rest, calls := [] }

/-! ## Wire format, as the specification words it -/

/-- One TLV record on the wire: type(1), length(2, big-endian), then the first
`len` bytes of the value. -/
def tlv_wire (t : Tlv) : List Nat :=
  [t.type, t.len / 256 % 256, t.len % 256] ++ t.value.take t.len

/-- The TLVs of a CMDU that are in use: the first `tlv_count` slots. -/
def Cmdu.used (c : Cmdu) : List Tlv := c.tlvs.take c.tlv_count

/-- Size of the frame of a CMDU: 7 header bytes, `3 + len` bytes for every TLV,
3 bytes of end-of-message record. -/
def frame_size (c : Cmdu) : Nat :=
  7 + (c.used.map (fun t => 3 + t.len)).sum + 3

/-- The wire frame: reserved byte, message type and message id big-endian,
fragment id, flags (bit 7 is `last_fragment`), the TLV records in order, and the
end-of-message record. -/
def wire_frame (c : Cmdu) : List Nat :=
  [0x00, c.message_type / 256 % 256, c.message_type % 256,
    c.message_id / 256 % 256, c.message_id % 256, c.fragment_id,
    if c.last_fragment then 0x80 else 0x00]
  ++ (c.used.map tlv_wire).flatten ++ [0x00, 0x00, 0x00]

/-- The seven header bytes of the wire frame. -/
def wire_header (c : Cmdu) : List Nat :=
  [0x00, c.message_type / 256 % 256, c.message_type % 256,
    c.message_id / 256 % 256, c.message_id % 256, c.fragment_id,
    if c.last_fragment then 0x80 else 0x00]

/-- The CMDUs that the frames received for the datagrams `ds` decode to, in
order; a datagram whose frame does not decode contributes none. -/
def decoded (ds : List (List Nat)) : List Cmdu :=
  ds.filterMap (fun d =>
    match cmdu_unpack (d.take I1905_MAX_FRAME_SIZE) with
    | Ret.ok c => some c
    | _ => none)

/-! ## Auxiliary definitions of the proofs -/

/-- The stores of the bytes `bs` at the consecutive indices from `p` on. -/
def stores_at (p : Nat) : List Nat → List (Nat × Nat)
  | [] => []
  | b :: bs => (p, b) :: stores_at (p + 1) bs

/-- The bytes that one iteration of the loop of `cmdu_pack` stores for the TLV `t`. -/
def raw_tlv (t : Tlv) : List Nat :=
  [t.type, hi8 t.len, lo8 t.len] ++ bytes_of t.value t.len

/-- Sum of the record sizes of a list of TLVs. -/
def records_size (ts : List Tlv) : Nat := (ts.map (fun t => 3 + t.len)).sum

/-- The bytes `cmdu_pack` stores for a CMDU that fits. -/
def raw_frame (c : Cmdu) : List Nat :=
  [0x00, hi8 c.message_type, lo8 c.message_type, hi8 c.message_id, lo8 c.message_id,
    c.fragment_id, if c.last_fragment then 0x80 else 0x00]
  ++ (c.used.map raw_tlv).flatten ++ [0x00, 0x00, 0x00]

/-- The state of `cmdu_pack` after the seven stores of the header. -/
def header_state (c : Cmdu) : PackSt :=
  { pos := 7,
    log := stores_at 0 [0x00, hi8 c.message_type, lo8 c.message_type, hi8 c.message_id,
      lo8 c.message_id, c.fragment_id, if c.last_fragment then 0x80 else 0x00] }

/-- The iteration budget `fuel` is enough for the loop of `cmdu_unpack` at `pos`. -/
def Enough (buf : List Nat) (fuel pos : Nat) : Prop := 0 < fuel ∧ buf.length < fuel + pos

/-- A TLV record as it lies in a buffer: its type is not end-of-message, `len`
is a 16-bit number and counts the value bytes. -/
def Tlv.record (t : Tlv) : Prop :=
  t.type ≠ I1905_TLV_END_OF_MESSAGE ∧ t.len = t.value.length ∧ t.len < 65536

instance (t : Tlv) : Decidable t.record := by
  unfold Tlv.record; infer_instance

/-- The buffer `buf` is a 7-byte header `hdr`, then the TLV records `ts` one
after the other, then the bytes `rest`. -/
def Layout (buf hdr : List Nat) (ts : List Tlv) (rest : List Nat) : Prop :=
  hdr.length = 7 ∧ (∀ t ∈ ts, t.record) ∧ buf = hdr ++ (ts.map tlv_wire).flatten ++ rest

instance (buf hdr : List Nat) (ts : List Tlv) (rest : List Nat) :
    Decidable (Layout buf hdr ts rest) := by
  unfold Layout; infer_instance

/-- A TLV with its value cut to the first `len` bytes. -/
def Tlv.trim (t : Tlv) : Tlv := { t with value := t.value.take t.len }

/-- The id that follows the counter value `c`: `c + 1`, and 1 after 65535. -/
def succ_id (c : Nat) : Nat := if c < 65535 then c + 1 else 1

/-- What the loop of `cmdu_unpack` keeps true of `*out` at the cursor `pos`. -/
def UnpackInv (buf : List Nat) (pos : Nat) (out : Cmdu) : Prop :=
  out.tlv_count = out.tlvs.length ∧ out.tlv_count ≤ I1905_MAX_TLVS ∧
  (∀ t ∈ out.tlvs, t.len ≤ I1905_MAX_TLV_VALUE ∧ t.type ≠ I1905_TLV_END_OF_MESSAGE ∧
    t.value.length = t.len) ∧
  7 + records_size out.tlvs = pos ∧ pos ≤ buf.length

/-- The head of the wire frame that ends behind the record of TLV number `k`:
the header and the records of the first `k` TLVs. -/
def frame_head (c : Cmdu) (k : Nat) : List Nat :=
  wire_header c ++ ((c.used.take k).map tlv_wire).flatten

/-- The CMDU that a builder handed to `send_cmdu` has the message type `ty`, the
fragment id 0, the last-fragment flag set, and exactly the TLVs `ts`, each given
by its type, its `len` and its first `len` value bytes. -/
def Built (r : SendOut) (ty : Nat) (ts : List Tlv) : Prop :=
  r.cmdu.message_type = ty ∧ r.cmdu.fragment_id = 0 ∧ r.cmdu.last_fragment = true ∧
  r.cmdu.tlv_count = ts.length ∧ r.cmdu.tlvs.map Tlv.trim = ts

/-- Two 7-byte headers that differ at most in the reserved byte 0 and in the low
7 bits of the flags byte 6. -/
def SameHeader (h1 h2 : List Nat) : Prop :=
  h1.length = 7 ∧ h2.length = 7 ∧ (h1.drop 1).take 5 = (h2.drop 1).take 5 ∧
  h1.getD 6 0 / 128 = h2.getD 6 0 / 128

instance (h1 h2 : List Nat) : Decidable (SameHeader h1 h2) := by
  unfold SameHeader; infer_instance

/-! ## Lemmas on bytes and stores -/

theorem hi8_eq (x : Nat) : hi8 x = x / 256 % 256 := by
  unfold hi8
  rw [Nat.shiftRight_eq_div_pow]
  exact Nat.and_pow_two_sub_one_eq_mod (x / 2 ^ 8) 8

theorem lo8_eq (x : Nat) : lo8 x = x % 256 := by
  unfold lo8
  exact Nat.and_pow_two_sub_one_eq_mod x 8

theorem be16_eq (hi lo : Nat) (h : lo < 256) : be16 hi lo = hi * 256 + lo := by
  unfold be16
  rw [Nat.shiftLeft_eq, Nat.mul_comm hi, ← Nat.mul_add_lt_is_or (by simpa using h)]

theorem be16_split (x : Nat) (h : x < 65536) : be16 (x / 256 % 256) (x % 256) = x := by
  rw [be16_eq _ _ (Nat.mod_lt _ (by norm_num))]
  omega

theorem bytes_of_length (src : List Nat) (n : Nat) : (bytes_of src n).length = n := by
  simp [bytes_of]

theorem bytes_of_eq_take (src : List Nat) (n : Nat) (h : n ≤ src.length) :
    bytes_of src n = src.take n := by
  apply List.ext_getElem
  · simp [bytes_of, h]
  · intro k h1 h2
    simp [bytes_of] at h1 ⊢
    rw [List.getElem?_eq_getElem (by omega)]; rfl

theorem stores_at_append (p : Nat) (xs ys : List Nat) :
    stores_at p (xs ++ ys) = stores_at p xs ++ stores_at (p + xs.length) ys := by
  induction xs generalizing p with
  | nil => simp [stores_at]
  | cons x xs ih =>
    simp [stores_at, ih, Nat.add_assoc, Nat.add_comm 1]

theorem stores_at_map_range (p n : Nat) (f : Nat → Nat) :
    (List.range n).map (fun k => (p + k, f k)) = stores_at p ((List.range n).map f) := by
  induction n generalizing p f with
  | zero => simp [stores_at]
  | succ n ih =>
    rw [List.range_succ_eq_map]
    simp only [List.map_cons, List.map_map, stores_at, Nat.add_zero]
    congr 1
    rw [← ih (p + 1) (f ∘ Nat.succ)]
    apply List.map_congr_left
    intro k _
    simp [Nat.succ_eq_add_one]; omega

theorem replay_append (m : Mem) (xs ys : List (Nat × Nat)) :
    Mem.replay m (xs ++ ys) = Mem.replay (Mem.replay m xs) ys := by
  induction xs generalizing m with
  | nil => rfl
  | cons x xs ih => obtain ⟨i, v⟩ := x; simp [Mem.replay, ih]

theorem replay_stores_at (m : Mem) (p : Nat) (bs : List Nat) (k : Nat) :
    Mem.replay m (stores_at p bs) k =
      if p ≤ k ∧ k < p + bs.length then bs.getD (k - p) 0 else m k := by
  induction bs generalizing m p with
  | nil =>
    simp only [stores_at, Mem.replay, List.length_nil, Nat.add_zero]
    rw [if_neg (by omega)]
  | cons b bs ih =>
    simp only [stores_at, Mem.replay, ih, List.length_cons]
    by_cases h1 : p + 1 ≤ k ∧ k < p + 1 + bs.length
    · rw [if_pos h1, if_pos (by omega)]
      have : k - p = (k - (p + 1)) + 1 := by omega
      rw [this]; simp
    · rw [if_neg h1]
      by_cases h2 : k = p
      · subst h2; simp [Mem.store]
      · rw [if_neg (by omega)]; simp [Mem.store, h2]

theorem first_replay_stores (m : Mem) (bs : List Nat) :
    (Mem.replay m (stores_at 0 bs)).first bs.length = bs := by
  apply List.ext_getElem
  · simp [Mem.first]
  · intro k h1 h2
    simp only [Mem.first, List.getElem_map, List.getElem_range, replay_stores_at]
    rw [if_pos (by omega)]
    simp [List.getElem?_eq_getElem h2]

/-! ## The encoder `cmdu_pack` -/

theorem raw_tlv_length (t : Tlv) : (raw_tlv t).length = 3 + t.len := by
  simp [raw_tlv, bytes_of_length]; omega

theorem raw_flatten_length (ts : List Tlv) :
    ((ts.map raw_tlv).flatten).length = records_size ts := by
  induction ts with
  | nil => simp [records_size]
  | cons t ts ih => simp [records_size, raw_tlv_length] at ih ⊢; omega

theorem pack_step_log (s : PackSt) (t : Tlv) :
    (((s.put t.type).put (hi8 t.len)).put (lo8 t.len)).memcpy t.value t.len
      = { pos := s.pos + 3, log := s.log ++ stores_at s.pos (raw_tlv t) } := by
  simp only [PackSt.put, PackSt.memcpy, raw_tlv, stores_at_map_range, bytes_of, stores_at,
    List.cons_append, List.nil_append, List.append_assoc, List.singleton_append]
  rfl

theorem drop_take_succ (tlvs : List Tlv) (i n : Nat) (h : i + (n + 1) ≤ tlvs.length) :
    (tlvs.drop i).take (n + 1) = tlvs.getD i default :: (tlvs.drop (i + 1)).take n := by
  rw [List.drop_eq_getElem_cons (by omega), List.take_succ_cons]
  simp [List.getElem?_eq_getElem (show i < tlvs.length by omega)]

theorem pack_tlvs_ok (tlvs : List Tlv) (buf_len : Nat) :
    ∀ (n i : Nat) (s : PackSt), i + n ≤ tlvs.length →
      s.pos + records_size ((tlvs.drop i).take n) ≤ buf_len →
      pack_tlvs tlvs buf_len n i s =
        (true, { pos := s.pos + records_size ((tlvs.drop i).take n),
                 log := s.log ++ stores_at s.pos ((((tlvs.drop i).take n).map raw_tlv).flatten) }) := by
  intro n
  induction n with
  | zero => intro i s _ _; simp [pack_tlvs, records_size, stores_at]
  | succ n ih =>
    intro i s hi hfit
    rw [drop_take_succ tlvs i n hi] at hfit ⊢
    simp only [records_size, List.map_cons, List.sum_cons] at hfit
    unfold records_size at ih
    rw [pack_tlvs]
    simp only []
    rw [if_neg (by omega), pack_step_log]
    rw [ih (i + 1) _ (by omega) (by simp only []; omega)]
    simp only [records_size, List.map_cons, List.sum_cons, List.flatten_cons, stores_at_append,
      raw_tlv_length, List.append_assoc, Prod.mk.injEq, true_and, PackSt.mk.injEq]
    constructor
    · omega
    · congr 2
      congr 1
      omega

theorem pack_tlvs_pos (tlvs : List Tlv) (buf_len : Nat) :
    ∀ (n i : Nat) (s : PackSt), i + n ≤ tlvs.length →
      (pack_tlvs tlvs buf_len n i s).1 = true →
      (pack_tlvs tlvs buf_len n i s).2.pos = s.pos + records_size ((tlvs.drop i).take n) := by
  intro n
  induction n with
  | zero => intro i s _ _; simp [pack_tlvs, records_size]
  | succ n ih =>
    intro i s hi
    rw [drop_take_succ tlvs i n hi]
    simp only [records_size, List.map_cons, List.sum_cons]
    unfold records_size at ih
    rw [pack_tlvs]
    simp only []
    by_cases h : s.pos + 3 + (tlvs.getD i default).len > buf_len
    · rw [if_pos h]; simp
    · rw [if_neg h, pack_step_log]
      intro hok
      rw [ih (i + 1) _ (by omega) hok]
      simp only []; omega

theorem pack_tlvs_false (tlvs : List Tlv) (buf_len : Nat) :
    ∀ (n i : Nat) (s : PackSt), i + n ≤ tlvs.length →
      (pack_tlvs tlvs buf_len n i s).1 = false →
      buf_len < s.pos + records_size ((tlvs.drop i).take n) := by
  intro n
  induction n with
  | zero => intro i s _ h; simp [pack_tlvs] at h
  | succ n ih =>
    intro i s hi
    rw [drop_take_succ tlvs i n hi]
    simp only [records_size, List.map_cons, List.sum_cons]
    unfold records_size at ih
    rw [pack_tlvs]
    simp only []
    by_cases h : s.pos + 3 + (tlvs.getD i default).len > buf_len
    · rw [if_pos h]; intro _; omega
    · rw [if_neg h, pack_step_log]
      intro hok
      have := ih (i + 1) _ (by omega) hok
      simp only [] at this; omega

theorem raw_frame_length (c : Cmdu) : (raw_frame c).length = frame_size c := by
  rw [raw_frame]
  simp only [List.length_append, raw_flatten_length]
  simp [frame_size, records_size]

theorem cmdu_pack_unfold (c : Cmdu) (buf_len : Nat) :
    cmdu_pack c buf_len =
      if buf_len < 6 then (none, [])
      else
        match pack_tlvs c.tlvs buf_len c.tlv_count 0 (header_state c) with
        | (false, s) => (none, s.log)
        | (true, s) =>
          if s.pos + 3 > buf_len then (none, s.log)
          else (some (s.pos + 3), s.log ++ stores_at s.pos [0, 0, 0]) := by
  unfold cmdu_pack
  by_cases h6 : buf_len < 6
  · simp only [if_pos h6]
  · simp only [if_neg h6]
    have : ((((((({ pos := 0, log := [] } : PackSt).put 0x00).put (hi8 c.message_type)).put
      (lo8 c.message_type)).put (hi8 c.message_id)).put (lo8 c.message_id)).put
      c.fragment_id).put (if c.last_fragment then 0x80 else 0x00) = header_state c := rfl
    rw [this]
    rcases pack_tlvs c.tlvs buf_len c.tlv_count 0 (header_state c) with ⟨b, s1⟩
    cases b with
    | false => rfl
    | true =>
      simp only []
      by_cases hf : s1.pos + 3 > buf_len
      · rw [if_pos hf, if_pos hf]
      · rw [if_neg hf, if_neg hf]
        simp [PackSt.put, stores_at, I1905_TLV_END_OF_MESSAGE]

theorem cmdu_pack_ret (c : Cmdu) (buf_len : Nat) (hs : c.tlv_count ≤ c.tlvs.length) :
    (cmdu_pack c buf_len).1 = if frame_size c > buf_len then none else some (frame_size c) := by
  rw [cmdu_pack_unfold]
  simp only [frame_size, Cmdu.used]
  have hd : c.tlvs.take c.tlv_count = (c.tlvs.drop 0).take c.tlv_count := by simp
  by_cases h6 : buf_len < 6
  · rw [if_pos h6, if_pos (by omega)]
  · rw [if_neg h6]
    have hp : (header_state c).pos = 7 := rfl
    have h1 := pack_tlvs_pos c.tlvs buf_len c.tlv_count 0 (header_state c) (by omega)
    have h2 := pack_tlvs_false c.tlvs buf_len c.tlv_count 0 (header_state c) (by omega)
    rw [← hd, hp] at h1 h2
    unfold records_size at h1 h2
    rcases hr : pack_tlvs c.tlvs buf_len c.tlv_count 0 (header_state c) with ⟨b, s1⟩
    rw [hr] at h1 h2
    cases b with
    | false =>
      have := h2 rfl
      simp only []
      rw [if_pos (by omega)]
    | true =>
      have := h1 rfl
      simp only [] at this ⊢
      by_cases hf : s1.pos + 3 > buf_len
      · rw [if_pos hf, if_pos (by omega)]
      · rw [if_neg hf, if_neg (by omega)]
        simp only []; congr 1; omega

theorem cmdu_pack_log (c : Cmdu) (buf_len : Nat) (hs : c.tlv_count ≤ c.tlvs.length)
    (hfit : frame_size c ≤ buf_len) :
    (cmdu_pack c buf_len).2 = stores_at 0 (raw_frame c) := by
  rw [cmdu_pack_unfold]
  simp only [frame_size, Cmdu.used] at hfit
  have hd : c.tlvs.take c.tlv_count = (c.tlvs.drop 0).take c.tlv_count := by simp
  rw [if_neg (by omega)]
  have hp : (header_state c).pos = 7 := rfl
  have h1 := pack_tlvs_ok c.tlvs buf_len c.tlv_count 0 (header_state c) (by omega)
    (by rw [← hd, hp]; unfold records_size; omega)
  rw [h1]
  simp only []
  rw [← hd, hp]
  rw [if_neg (by unfold records_size; omega)]
  simp only [header_state, raw_frame, Cmdu.used]
  rw [stores_at_append, stores_at_append]
  simp only [List.length_cons, List.length_nil, List.length_append, raw_flatten_length,
    List.append_assoc, Nat.zero_add]

theorem raw_tlv_eq_wire (t : Tlv) (h : t.len ≤ t.value.length) : raw_tlv t = tlv_wire t := by
  simp only [raw_tlv, tlv_wire, hi8_eq, lo8_eq, bytes_of_eq_take _ _ h]

theorem raw_frame_eq_wire (c : Cmdu) (hb : c.bounded) : raw_frame c = wire_frame c := by
  have h : c.used.map raw_tlv = c.used.map tlv_wire := by
    apply List.map_congr_left
    intro t ht
    exact raw_tlv_eq_wire t (hb.2.2 t ht).2
  simp only [raw_frame, wire_frame, h, hi8_eq, lo8_eq]

theorem wire_frame_length (c : Cmdu) (hb : c.bounded) : (wire_frame c).length = frame_size c := by
  rw [← raw_frame_eq_wire c hb, raw_frame_length]

/-- C3. `cmdu_pack` fails exactly when the frame does not fit: for every CMDU within
the bounds of the data model (at most 16 TLVs, each `len` at most 1024) and every
capacity `buf_len`, the return value is the error exactly when
`7 + Σ (3 + len) + 3 > buf_len`, and is that number otherwise. -/
theorem cmdu_pack_fits_iff (c : Cmdu) (buf_len : Nat) (hb : c.bounded) :
    ((cmdu_pack c buf_len).1 = none ↔ frame_size c > buf_len) ∧
    (¬ frame_size c > buf_len → (cmdu_pack c buf_len).1 = some (frame_size c)) := by
  rw [cmdu_pack_ret c buf_len hb.2.1]
  by_cases h : frame_size c > buf_len
  · simp [h]
  · simp [h]

/-- The bytes a successful `cmdu_pack` leaves in the destination. -/
theorem cmdu_pack_bytes (c : Cmdu) (buf_len n : Nat) (m0 : Mem) (hb : c.bounded)
    (h : (cmdu_pack c buf_len).1 = some n) :
    n = frame_size c ∧ frame_size c ≤ buf_len ∧
    (Mem.replay m0 (cmdu_pack c buf_len).2).first n = wire_frame c := by
  rw [cmdu_pack_ret c buf_len hb.2.1] at h
  by_cases hf : frame_size c > buf_len
  · simp [hf] at h
  · rw [if_neg hf] at h
    injection h with h
    refine ⟨h.symm, by omega, ?_⟩
    rw [cmdu_pack_log c buf_len hb.2.1 (by omega), ← h, ← raw_frame_length,
      first_replay_stores, raw_frame_eq_wire c hb]

/-- C4. Wire layout of `cmdu_pack`: whenever it succeeds returning `n`, the first `n`
bytes of the destination buffer are the reserved byte, the message type and the
message id big-endian, the fragment id, the flags byte (0x80 or 0x00), each TLV in
order as type, length big-endian and its first `len` value bytes, and the
end-of-message record 0x00 0x00 0x00. -/
theorem cmdu_pack_wire_layout (c : Cmdu) (buf_len n : Nat) (m0 : Mem) (hb : c.bounded)
    (h : (cmdu_pack c buf_len).1 = some n) :
    (Mem.replay m0 (cmdu_pack c buf_len).2).first n = wire_frame c :=
  (cmdu_pack_bytes c buf_len n m0 hb h).2.2

/-- C2 (failing input). With a capacity of 6 bytes `cmdu_pack` passes its only
check before the header (`buf_len < 6`) and stores the flags byte at index 6,
one past the end of the destination, before it returns the error; this holds
for every CMDU. -/
theorem cmdu_pack_overflow_at_6 (c : Cmdu) :
    (cmdu_pack c 6).1 = none ∧
    (6, if c.last_fragment then 0x80 else 0x00) ∈ (cmdu_pack c 6).2 := by
  rw [cmdu_pack_unfold]
  rw [if_neg (by omega)]
  have key : ∀ (n i : Nat) (s : PackSt), 7 ≤ s.pos →
      (∀ w ∈ (header_state c).log, w ∈ s.log) →
      (7 ≤ (pack_tlvs c.tlvs 6 n i s).2.pos) ∧
      (∀ w ∈ (header_state c).log, w ∈ (pack_tlvs c.tlvs 6 n i s).2.log) := by
    intro n
    induction n with
    | zero => intro i s h1 h2; exact ⟨h1, h2⟩
    | succ n _ =>
      intro i s h1 h2
      rw [pack_tlvs]
      simp only []
      rw [if_pos (by omega)]
      exact ⟨h1, h2⟩
  have hk := key c.tlv_count 0 (header_state c) (Nat.le_refl 7) (fun w hw => hw)
  have hmem : (6, if c.last_fragment then 0x80 else 0x00) ∈ (header_state c).log := by
    simp [header_state, stores_at]
  rcases hr : pack_tlvs c.tlvs 6 c.tlv_count 0 (header_state c) with ⟨b, s1⟩
  rw [hr] at hk
  cases b with
  | false => exact ⟨rfl, hk.2 _ hmem⟩
  | true =>
    simp only [] at hk ⊢
    rw [if_pos (by omega)]
    exact ⟨rfl, hk.2 _ hmem⟩

theorem cmdu_pack_fits_iff_witness :
    (⟨3, 0x1234, 0, true, 1, [⟨1, 2, [9, 8]⟩]⟩ : Cmdu).bounded ∧
    (((cmdu_pack ⟨3, 0x1234, 0, true, 1, [⟨1, 2, [9, 8]⟩]⟩ 14).1 = none ↔
        frame_size ⟨3, 0x1234, 0, true, 1, [⟨1, 2, [9, 8]⟩]⟩ > 14) ∧
      (¬ frame_size ⟨3, 0x1234, 0, true, 1, [⟨1, 2, [9, 8]⟩]⟩ > 14 →
        (cmdu_pack ⟨3, 0x1234, 0, true, 1, [⟨1, 2, [9, 8]⟩]⟩ 14).1 =
          some (frame_size ⟨3, 0x1234, 0, true, 1, [⟨1, 2, [9, 8]⟩]⟩))) :=
  ⟨by decide, cmdu_pack_fits_iff _ 14 (by decide)⟩

theorem cmdu_pack_wire_layout_witness :
    (⟨3, 0x1234, 0, true, 1, [⟨1, 2, [9, 8]⟩]⟩ : Cmdu).bounded ∧
    (cmdu_pack ⟨3, 0x1234, 0, true, 1, [⟨1, 2, [9, 8]⟩]⟩ 15).1 = some 15 ∧
    (Mem.replay (fun _ => 0) (cmdu_pack ⟨3, 0x1234, 0, true, 1, [⟨1, 2, [9, 8]⟩]⟩ 15).2).first 15
      = wire_frame ⟨3, 0x1234, 0, true, 1, [⟨1, 2, [9, 8]⟩]⟩ :=
  ⟨by decide, by decide,
    cmdu_pack_wire_layout _ 15 15 (fun _ => 0) (by decide) (by decide)⟩

/-! ## Where `cmdu_pack` stores -/

theorem stores_at_index (p : Nat) (bs : List Nat) :
    ∀ w ∈ stores_at p bs, p ≤ w.1 ∧ w.1 < p + bs.length := by
  induction bs generalizing p with
  | nil => intro w hw; simp [stores_at] at hw
  | cons b bs ih =>
    intro w hw
    simp only [stores_at, List.mem_cons] at hw
    rcases hw with rfl | hw
    · simp
    · have := ih (p + 1) w hw
      simp only [List.length_cons]; omega

theorem pack_tlvs_in_bounds (tlvs : List Tlv) (buf_len : Nat) :
    ∀ (n i : Nat) (s : PackSt), (∀ w ∈ s.log, w.1 < buf_len) →
      ∀ w ∈ (pack_tlvs tlvs buf_len n i s).2.log, w.1 < buf_len := by
  intro n
  induction n with
  | zero => intro i s h; exact h
  | succ n ih =>
    intro i s h
    rw [pack_tlvs]
    simp only []
    by_cases hc : s.pos + 3 + (tlvs.getD i default).len > buf_len
    · rw [if_pos hc]; exact h
    · rw [if_neg hc, pack_step_log]
      apply ih
      intro w hw
      simp only [List.mem_append] at hw
      rcases hw with hw | hw
      · exact h w hw
      · have := stores_at_index _ _ w hw
        rw [raw_tlv_length] at this
        omega

/-- Away from the capacity 6 every store of `cmdu_pack` is inside the destination,
whether the call succeeds or fails. -/
theorem cmdu_pack_in_bounds (c : Cmdu) (buf_len : Nat) (h6 : buf_len ≠ 6) :
    ∀ w ∈ (cmdu_pack c buf_len).2, w.1 < buf_len := by
  rw [cmdu_pack_unfold]
  by_cases h : buf_len < 6
  · rw [if_pos h]; intro w hw; simp at hw
  · rw [if_neg h]
    have hh : ∀ w ∈ (header_state c).log, w.1 < buf_len := by
      intro w hw
      have := stores_at_index _ _ w hw
      simp only [List.length_cons, List.length_nil] at this
      omega
    have hk := pack_tlvs_in_bounds c.tlvs buf_len c.tlv_count 0 (header_state c) hh
    rcases hr : pack_tlvs c.tlvs buf_len c.tlv_count 0 (header_state c) with ⟨b, s1⟩
    rw [hr] at hk
    cases b with
    | false => exact hk
    | true =>
      simp only [] at hk ⊢
      by_cases hf : s1.pos + 3 > buf_len
      · rw [if_pos hf]; exact hk
      · rw [if_neg hf]
        intro w hw
        simp only [List.mem_append] at hw
        rcases hw with hw | hw
        · exact hk w hw
        · have := stores_at_index _ _ w hw
          simp only [List.length_cons, List.length_nil] at this
          omega

/-! ## The decoder `cmdu_unpack`: iteration budget -/

theorem unpack_loop_fuel (buf : List Nat) :
    ∀ (f1 f2 pos : Nat) (out : Cmdu), Enough buf f1 pos → Enough buf f2 pos →
      unpack_loop buf f1 pos out = unpack_loop buf f2 pos out := by
  intro f1
  induction f1 with
  | zero => intro f2 pos out h; exact absurd h.1 (by omega)
  | succ a ih =>
    intro f2 pos out h1 h2
    obtain ⟨b, rfl⟩ : ∃ b, f2 = b + 1 := ⟨f2 - 1, by have := h2.1; omega⟩
    rw [unpack_loop, unpack_loop]
    by_cases hg : pos + 3 ≤ buf.length
    · simp only [if_pos hg]
      split_ifs
      · rfl
      · rfl
      · rfl
      · rfl
      · apply ih
        · exact ⟨by have := h1.2; omega, by have := h1.2; omega⟩
        · exact ⟨by have := h2.2; omega, by have := h2.2; omega⟩
    · simp only [if_neg hg]

theorem unpack_loop_step (buf : List Nat) (fuel pos : Nat) (out : Cmdu)
    (h : Enough buf fuel pos) :
    unpack_loop buf fuel pos out =
      if pos + 3 ≤ buf.length then
        if buf.getD pos 0 = I1905_TLV_END_OF_MESSAGE then Ret.ok out
        else if out.tlv_count ≥ I1905_MAX_TLVS then Ret.err
        else if be16 (buf.getD (pos + 1) 0) (buf.getD (pos + 2) 0) > I1905_MAX_TLV_VALUE then Ret.err
        else if pos + 3 + be16 (buf.getD (pos + 1) 0) (buf.getD (pos + 2) 0) > buf.length then Ret.err
        else
          unpack_loop buf fuel (pos + 3 + be16 (buf.getD (pos + 1) 0) (buf.getD (pos + 2) 0))
            { out with
              tlv_count := out.tlv_count + 1
              tlvs := out.tlvs ++
                [{ type := buf.getD pos 0
                   len := be16 (buf.getD (pos + 1) 0) (buf.getD (pos + 2) 0)
                   value := (buf.drop (pos + 3)).take
                     (be16 (buf.getD (pos + 1) 0) (buf.getD (pos + 2) 0)) }] }
      else Ret.ok out := by
  obtain ⟨a, rfl⟩ : ∃ a, fuel = a + 1 := ⟨fuel - 1, by have := h.1; omega⟩
  rw [unpack_loop]
  by_cases hg : pos + 3 ≤ buf.length
  · simp only [if_pos hg]
    split_ifs
    · rfl
    · rfl
    · rfl
    · rfl
    · apply unpack_loop_fuel
      · exact ⟨by have := h.2; omega, by have := h.2; omega⟩
      · exact ⟨by omega, by have := h.2; omega⟩
  · simp only [if_neg hg]

theorem unpack_loop_not_stuck (buf : List Nat) :
    ∀ (fuel pos : Nat) (out : Cmdu), Enough buf fuel pos →
      unpack_loop buf fuel pos out ≠ Ret.stuck := by
  intro fuel
  induction fuel with
  | zero => intro pos out h; exact absurd h.1 (by omega)
  | succ a ih =>
    intro pos out h
    rw [unpack_loop]
    by_cases hg : pos + 3 ≤ buf.length
    · simp only [if_pos hg]
      split_ifs
      · simp
      · simp
      · simp
      · simp
      · apply ih
        exact ⟨by have := h.2; omega, by have := h.2; omega⟩
    · simp only [if_neg hg]; simp

theorem cmdu_unpack_not_stuck (buf : List Nat) : cmdu_unpack buf ≠ Ret.stuck := by
  unfold cmdu_unpack
  split_ifs with h
  · simp
  · exact unpack_loop_not_stuck buf _ _ _ ⟨by omega, by omega⟩

/-! ## The decoder `cmdu_unpack`: walk over the records -/

theorem getD_of_drop (buf : List Nat) (pos k : Nat) (xs : List Nat)
    (h : buf.drop pos = xs) : buf.getD (pos + k) 0 = xs.getD k 0 := by
  subst h
  simp [List.getD, List.getElem?_drop]

theorem length_of_drop (buf : List Nat) (pos : Nat) (xs : List Nat)
    (h : buf.drop pos = xs) (hx : 0 < xs.length) : buf.length = pos + xs.length := by
  subst h
  simp only [List.length_drop] at hx ⊢
  omega

theorem drop_add_of_drop (buf : List Nat) (pos : Nat) (xs ys : List Nat)
    (h : buf.drop pos = xs ++ ys) : buf.drop (pos + xs.length) = ys := by
  rw [← List.drop_drop, h, List.drop_left]

theorem tlv_wire_record (t : Tlv) (h : t.record) :
    tlv_wire t = t.type :: (t.len / 256 % 256) :: (t.len % 256) :: t.value := by
  simp [tlv_wire, h.2.1]

theorem tlv_wire_length (t : Tlv) (h : t.len ≤ t.value.length) :
    (tlv_wire t).length = 3 + t.len := by
  simp [tlv_wire, h]; omega

theorem wire_flatten_length (ts : List Tlv) (h : ∀ t ∈ ts, t.len ≤ t.value.length) :
    ((ts.map tlv_wire).flatten).length = records_size ts := by
  induction ts with
  | nil => simp [records_size]
  | cons t ts ih =>
    have h1 := tlv_wire_length t (h t (by simp))
    have h2 := ih (fun u hu => h u (by simp [hu]))
    simp only [List.map_cons, List.flatten_cons, List.length_append, records_size,
      List.sum_cons] at h2 ⊢
    omega

/-- The loop of `cmdu_unpack` over a run of records `ts` that lies at `pos`: it
accepts them all and goes on behind them when the caps allow it, and returns
the error otherwise. -/
theorem unpack_loop_records (buf : List Nat) (fuel : Nat) :
    ∀ (ts : List Tlv) (pos : Nat) (out : Cmdu) (rest : List Nat),
      Enough buf fuel pos → out.tlv_count ≤ I1905_MAX_TLVS → (∀ t ∈ ts, t.record) →
      buf.drop pos = (ts.map tlv_wire).flatten ++ rest →
      unpack_loop buf fuel pos out =
        if out.tlv_count + ts.length ≤ I1905_MAX_TLVS ∧ ∀ t ∈ ts, t.len ≤ I1905_MAX_TLV_VALUE then
          unpack_loop buf fuel (pos + records_size ts)
            { out with tlv_count := out.tlv_count + ts.length, tlvs := out.tlvs ++ ts }
        else Ret.err := by
  intro ts
  induction ts with
  | nil =>
    intro pos out rest _ hcnt _ _
    simp [records_size, hcnt]
  | cons t ts ih =>
    intro pos out rest hf hcnt hrec hdrop
    have ht : t.record := hrec t (by simp)
    have hts : ∀ u ∈ ts, u.record := fun u hu => hrec u (by simp [hu])
    simp only [List.map_cons, List.flatten_cons, tlv_wire_record t ht, List.cons_append,
      List.append_assoc] at hdrop
    have hlen := length_of_drop buf pos _ hdrop (by simp)
    simp only [List.length_cons, List.length_append] at hlen
    have g0 : buf.getD pos 0 = t.type := by
      have := getD_of_drop buf pos 0 _ hdrop; simpa using this
    have g1 : buf.getD (pos + 1) 0 = t.len / 256 % 256 := by
      have := getD_of_drop buf pos 1 _ hdrop; simpa using this
    have g2 : buf.getD (pos + 2) 0 = t.len % 256 := by
      have := getD_of_drop buf pos 2 _ hdrop; simpa using this
    have hd3 : buf.drop (pos + 3) = t.value ++ ((ts.map tlv_wire).flatten ++ rest) :=
      drop_add_of_drop buf pos [t.type, t.len / 256 % 256, t.len % 256] _ (by simpa using hdrop)
    have hd4 : buf.drop (pos + 3 + t.len) = (ts.map tlv_wire).flatten ++ rest := by
      rw [ht.2.1]; exact drop_add_of_drop buf (pos + 3) t.value _ hd3
    have hval : (buf.drop (pos + 3)).take t.len = t.value := by
      rw [hd3, ht.2.1, List.take_left]
    rw [unpack_loop_step buf fuel pos out hf, if_pos (by omega), g0, g1, g2,
      be16_split t.len ht.2.2, if_neg ht.1]
    by_cases hc : out.tlv_count ≥ I1905_MAX_TLVS
    · rw [if_pos hc, if_neg]
      simp only [List.length_cons]; omega
    · rw [if_neg hc]
      by_cases hl : t.len > I1905_MAX_TLV_VALUE
      · rw [if_pos hl, if_neg]
        intro h; have := h.2 t (by simp); omega
      · rw [if_neg hl, if_neg (by have := ht.2.1; omega), hval]
        rw [ih (pos + 3 + t.len) _ rest ⟨hf.1, by have := hf.2; omega⟩ (by simp only []; omega) hts hd4]
        simp only [List.length_cons, List.mem_cons, forall_eq_or_imp, records_size,
          List.map_cons, List.sum_cons, List.append_assoc, List.singleton_append]
        have e1 : out.tlv_count + 1 + ts.length = out.tlv_count + (ts.length + 1) := by omega
        have e2 : pos + 3 + t.len + (ts.map (fun t => 3 + t.len)).sum
            = pos + (3 + t.len + (ts.map (fun t => 3 + t.len)).sum) := by omega
        rw [e1, e2]
        have e3 : (t.len ≤ I1905_MAX_TLV_VALUE ∧ ∀ a ∈ ts, a.len ≤ I1905_MAX_TLV_VALUE) ↔
            ∀ a ∈ ts, a.len ≤ I1905_MAX_TLV_VALUE := by
          constructor
          · exact fun h => h.2
          · exact fun h => ⟨by omega, h⟩
        simp only [e3]

theorem unpack_header_append (hdr xs : List Nat) (h : hdr.length = 7) :
    unpack_header (hdr ++ xs) = unpack_header hdr := by
  unfold unpack_header
  rw [List.getD_append _ _ _ 1 (by omega), List.getD_append _ _ _ 2 (by omega),
    List.getD_append _ _ _ 3 (by omega), List.getD_append _ _ _ 4 (by omega),
    List.getD_append _ _ _ 5 (by omega), List.getD_append _ _ _ 6 (by omega)]

theorem Layout.length {buf hdr : List Nat} {ts : List Tlv} {rest : List Nat}
    (h : Layout buf hdr ts rest) : buf.length = 7 + records_size ts + rest.length := by
  obtain ⟨h7, hrec, rfl⟩ := h
  simp only [List.length_append, h7,
    wire_flatten_length ts (fun t ht => Nat.le_of_eq (hrec t ht).2.1)]

theorem Layout.drop {buf hdr : List Nat} {ts : List Tlv} {rest : List Nat}
    (h : Layout buf hdr ts rest) : buf.drop (7 + records_size ts) = rest := by
  have hl := wire_flatten_length ts (fun t ht => Nat.le_of_eq (h.2.1 t ht).2.1)
  obtain ⟨h7, hrec, rfl⟩ := h
  rw [← h7, ← hl, ← List.length_append, List.drop_left]

/-- The decoder on a buffer that is a header, a run of records and a rest: the
records are accepted when the caps allow it, and the loop goes on at the rest. -/
theorem cmdu_unpack_layout {buf hdr : List Nat} {ts : List Tlv} {rest : List Nat}
    (h : Layout buf hdr ts rest) :
    cmdu_unpack buf =
      if ts.length ≤ I1905_MAX_TLVS ∧ ∀ t ∈ ts, t.len ≤ I1905_MAX_TLV_VALUE then
        unpack_loop buf buf.length (7 + records_size ts)
          { unpack_header hdr with tlv_count := ts.length, tlvs := ts }
      else Ret.err := by
  have hlen := h.length
  obtain ⟨h7, hrec, hbuf⟩ := h
  unfold cmdu_unpack
  rw [if_neg (by omega)]
  have hd : buf.drop 7 = (ts.map tlv_wire).flatten ++ rest := by
    rw [hbuf, List.append_assoc, ← h7, List.drop_left]
  rw [unpack_loop_records buf buf.length ts 7 (unpack_header buf) rest ⟨by omega, by omega⟩
    (by simp [unpack_header, I1905_MAX_TLVS]) hrec hd]
  have hh : unpack_header buf = unpack_header hdr := by
    rw [hbuf, List.append_assoc, unpack_header_append _ _ h7]
  rw [hh]
  simp [unpack_header]

theorem Layout.enough {buf hdr : List Nat} {ts : List Tlv} {rest : List Nat}
    (h : Layout buf hdr ts rest) : Enough buf buf.length (7 + records_size ts) := by
  have := h.length
  exact ⟨by omega, by omega⟩

/-- C5 (as the code has it). When the walk over the TLV records of a buffer of
at least 7 bytes reaches a position with fewer than 3 bytes remaining without
having read an end-of-message record, `cmdu_unpack` leaves its loop and returns
success with the records accepted so far: a missing or cut end-of-message
record is not an error. -/
theorem cmdu_unpack_short_tail (buf hdr : List Nat) (ts : List Tlv) (rest : List Nat)
    (h : Layout buf hdr ts rest) (hcnt : ts.length ≤ I1905_MAX_TLVS)
    (hcap : ∀ t ∈ ts, t.len ≤ I1905_MAX_TLV_VALUE) (hrest : rest.length < 3) :
    cmdu_unpack buf = Ret.ok { unpack_header hdr with tlv_count := ts.length, tlvs := ts } := by
  rw [cmdu_unpack_layout h, if_pos ⟨hcnt, hcap⟩, unpack_loop_step _ _ _ _ h.enough,
    if_neg (by have := h.length; omega)]

/-- The loop of `cmdu_unpack` at a record header `ty, a, b` that is followed by `tail`. -/
theorem unpack_loop_head (buf : List Nat) (fuel pos : Nat) (out : Cmdu) (ty a b : Nat)
    (tail : List Nat) (hf : Enough buf fuel pos) (hd : buf.drop pos = ty :: a :: b :: tail) :
    (ty = I1905_TLV_END_OF_MESSAGE → unpack_loop buf fuel pos out = Ret.ok out) ∧
    (ty ≠ I1905_TLV_END_OF_MESSAGE →
      (out.tlv_count ≥ I1905_MAX_TLVS ∨ be16 a b > I1905_MAX_TLV_VALUE ∨ be16 a b > tail.length) →
      unpack_loop buf fuel pos out = Ret.err) := by
  have hlen := length_of_drop buf pos _ hd (by simp)
  simp only [List.length_cons] at hlen
  have g0 : buf.getD pos 0 = ty := by
    have := getD_of_drop buf pos 0 _ hd; simpa using this
  have g1 : buf.getD (pos + 1) 0 = a := by
    have := getD_of_drop buf pos 1 _ hd; simpa using this
  have g2 : buf.getD (pos + 2) 0 = b := by
    have := getD_of_drop buf pos 2 _ hd; simpa using this
  rw [unpack_loop_step buf fuel pos out hf, if_pos (by omega), g0, g1, g2]
  constructor
  · intro h0; rw [if_pos h0]
  · intro h0 hbad
    rw [if_neg h0]
    by_cases h1 : out.tlv_count ≥ I1905_MAX_TLVS
    · rw [if_pos h1]
    · rw [if_neg h1]
      by_cases h2 : be16 a b > I1905_MAX_TLV_VALUE
      · rw [if_pos h2]
      · rw [if_neg h2, if_pos]
        rcases hbad with hbad | hbad | hbad
        · exact absurd hbad h1
        · exact absurd hbad h2
        · omega

/-- The decoder on a buffer whose records `ts` are followed by an end-of-message
record: success with the records, whatever the two length bytes of the
end-of-message record and the bytes behind it are. -/
theorem cmdu_unpack_eom (buf hdr : List Nat) (ts : List Tlv) (a b : Nat) (tail : List Nat)
    (h : Layout buf hdr ts (I1905_TLV_END_OF_MESSAGE :: a :: b :: tail))
    (hcnt : ts.length ≤ I1905_MAX_TLVS) (hcap : ∀ t ∈ ts, t.len ≤ I1905_MAX_TLV_VALUE) :
    cmdu_unpack buf = Ret.ok { unpack_header hdr with tlv_count := ts.length, tlvs := ts } := by
  rw [cmdu_unpack_layout h, if_pos ⟨hcnt, hcap⟩]
  exact (unpack_loop_head _ _ _ _ _ a b tail h.enough h.drop).1 rfl

/-- The decoder on a buffer in which a record with a type other than
end-of-message breaks a cap or declares more bytes than remain: the error. -/
theorem cmdu_unpack_bad_record (buf hdr : List Nat) (ts : List Tlv) (ty a b : Nat)
    (tail : List Nat) (h : Layout buf hdr ts (ty :: a :: b :: tail))
    (hty : ty ≠ I1905_TLV_END_OF_MESSAGE)
    (hbad : ts.length ≥ I1905_MAX_TLVS ∨ be16 a b > I1905_MAX_TLV_VALUE ∨ be16 a b > tail.length) :
    cmdu_unpack buf = Ret.err := by
  rw [cmdu_unpack_layout h]
  split_ifs with hc
  · exact (unpack_loop_head _ _ _ _ ty a b tail h.enough h.drop).2 hty hbad
  · rfl

/-- C6. `cmdu_unpack` rejects truncated input: a buffer shorter than 7 bytes, and a
buffer of at least 7 bytes in which, before any end-of-message record, a record
with non-zero type declares a length greater than the number of bytes remaining
after its 3-byte header. -/
theorem cmdu_unpack_truncated (buf : List Nat)
    (h : buf.length < 7 ∨
      ∃ hdr ts ty a b tail, Layout buf hdr ts (ty :: a :: b :: tail) ∧
        ty ≠ I1905_TLV_END_OF_MESSAGE ∧ be16 a b > tail.length) :
    cmdu_unpack buf = Ret.err := by
  rcases h with h | ⟨hdr, ts, ty, a, b, tail, hl, hty, hbad⟩
  · unfold cmdu_unpack; rw [if_pos h]
  · exact cmdu_unpack_bad_record buf hdr ts ty a b tail hl hty (Or.inr (Or.inr hbad))

/-- C7. `cmdu_unpack` enforces the fixed caps: a buffer in which, before any
end-of-message record, a record with non-zero type declares a length greater
than 1024, or a 17th record with non-zero type is reached after 16 TLVs have been
accepted, is an error. -/
theorem cmdu_unpack_caps (buf : List Nat)
    (h : ∃ hdr ts ty a b tail, Layout buf hdr ts (ty :: a :: b :: tail) ∧
        ty ≠ I1905_TLV_END_OF_MESSAGE ∧
        (be16 a b > I1905_MAX_TLV_VALUE ∨
          (ts.length = I1905_MAX_TLVS ∧ ∀ t ∈ ts, t.len ≤ I1905_MAX_TLV_VALUE))) :
    cmdu_unpack buf = Ret.err := by
  obtain ⟨hdr, ts, ty, a, b, tail, hl, hty, hbad⟩ := h
  apply cmdu_unpack_bad_record buf hdr ts ty a b tail hl hty
  rcases hbad with hbad | hbad
  · exact Or.inr (Or.inl hbad)
  · exact Or.inl (Nat.le_of_eq hbad.1.symm)

theorem cmdu_unpack_short_tail_witness :
    Layout [0, 0, 3, 0x12, 0x34, 0, 0x80, 1, 0, 2, 9, 8, 0, 0] [0, 0, 3, 0x12, 0x34, 0, 0x80]
      [⟨1, 2, [9, 8]⟩] [0, 0] ∧
    cmdu_unpack [0, 0, 3, 0x12, 0x34, 0, 0x80, 1, 0, 2, 9, 8, 0, 0] =
      Ret.ok { unpack_header [0, 0, 3, 0x12, 0x34, 0, 0x80] with
        tlv_count := 1, tlvs := [⟨1, 2, [9, 8]⟩] } :=
  ⟨by decide,
    cmdu_unpack_short_tail _ [0, 0, 3, 0x12, 0x34, 0, 0x80] [⟨1, 2, [9, 8]⟩] [0, 0]
      (by decide) (by decide) (by decide) (by decide)⟩

/-- C5 (counterexample). A buffer that is only the 7-byte header has fewer than 3
bytes left for a TLV header and no end-of-message record, and `cmdu_unpack`
returns success with zero TLVs on it, not an error. -/
theorem cmdu_unpack_header_only_succeeds :
    7 ≤ [0, 0, 3, 0x12, 0x34, 0, 0x80].length ∧
    cmdu_unpack [0, 0, 3, 0x12, 0x34, 0, 0x80] = Ret.ok ⟨3, 0x1234, 0, true, 0, []⟩ ∧
    cmdu_unpack [0, 0, 3, 0x12, 0x34, 0, 0x80] ≠ Ret.err := by
  decide

theorem cmdu_unpack_truncated_witness :
    cmdu_unpack [0, 0, 3, 0x12, 0x34, 0] = Ret.err ∧
    cmdu_unpack [0, 0, 3, 0x12, 0x34, 0, 0x80, 1, 0, 2, 9, 8, 2, 0, 3, 7, 7] = Ret.err :=
  ⟨cmdu_unpack_truncated _ (Or.inl (by decide)),
    cmdu_unpack_truncated _
      (Or.inr ⟨[0, 0, 3, 0x12, 0x34, 0, 0x80], [⟨1, 2, [9, 8]⟩], 2, 0, 3, [7, 7],
        by decide, by decide, by decide⟩)⟩

theorem cmdu_unpack_caps_witness :
    cmdu_unpack [0, 0, 3, 0x12, 0x34, 0, 0x80, 1, 0, 2, 9, 8, 2, 4, 1, 7, 7] = Ret.err ∧
    cmdu_unpack ([0, 0, 3, 0x12, 0x34, 0, 0x80]
      ++ ((List.replicate 16 (⟨1, 1, [5]⟩ : Tlv)).map tlv_wire).flatten ++ [2, 0, 0]) = Ret.err :=
  ⟨cmdu_unpack_caps _
      ⟨[0, 0, 3, 0x12, 0x34, 0, 0x80], [⟨1, 2, [9, 8]⟩], 2, 4, 1, [7, 7],
        by decide, by decide, Or.inl (by decide)⟩,
    cmdu_unpack_caps _
      ⟨[0, 0, 3, 0x12, 0x34, 0, 0x80], List.replicate 16 ⟨1, 1, [5]⟩, 2, 0, 0, [],
        by decide, by decide, Or.inr (by decide)⟩⟩

/-! ## Round trip -/

theorem tlv_wire_trim (t : Tlv) : tlv_wire t.trim = tlv_wire t := by
  simp [tlv_wire, Tlv.trim, List.take_take]

theorem unpack_header_wire (c : Cmdu) (ht : c.typed) :
    unpack_header [0x00, c.message_type / 256 % 256, c.message_type % 256,
      c.message_id / 256 % 256, c.message_id % 256, c.fragment_id,
      if c.last_fragment then 0x80 else 0x00]
    = { c with tlv_count := 0, tlvs := [] } := by
  obtain ⟨h1, h2, -, -⟩ := ht
  have e1 := be16_split c.message_type h1
  have e2 := be16_split c.message_id h2
  cases hl : c.last_fragment <;>
    simp [unpack_header, List.getD, e1, e2, hl]

/-- The decoder on the wire frame of a CMDU none of whose TLVs has the
end-of-message type. -/
theorem cmdu_unpack_wire_frame (c : Cmdu) (hb : c.bounded) (ht : c.typed)
    (hnz : ∀ t ∈ c.used, t.type ≠ I1905_TLV_END_OF_MESSAGE) :
    cmdu_unpack (wire_frame c) = Ret.ok { c with tlvs := c.used.map Tlv.trim } := by
  obtain ⟨h16, hslots, hlen⟩ := hb
  have hmap : c.used.map tlv_wire = (c.used.map Tlv.trim).map tlv_wire := by
    rw [List.map_map]
    apply List.map_congr_left
    intro t _
    simp [tlv_wire_trim]
  have hl : Layout (wire_frame c)
      [0x00, c.message_type / 256 % 256, c.message_type % 256,
        c.message_id / 256 % 256, c.message_id % 256, c.fragment_id,
        if c.last_fragment then 0x80 else 0x00]
      (c.used.map Tlv.trim) (I1905_TLV_END_OF_MESSAGE :: 0 :: 0 :: []) := by
    refine ⟨rfl, ?_, ?_⟩
    · intro t htm
      obtain ⟨u, hu, rfl⟩ := List.mem_map.1 htm
      have := hlen u hu
      refine ⟨hnz u hu, ?_, ?_⟩
      · simp [Tlv.trim, this.2]
      · simp only [Tlv.trim, I1905_MAX_TLV_VALUE] at this ⊢; omega
    · rw [← hmap]; rfl
  rw [cmdu_unpack_eom _ _ _ 0 0 [] hl (by simpa [Cmdu.used, hslots] using h16)
    (by
      intro t htm
      obtain ⟨u, hu, rfl⟩ := List.mem_map.1 htm
      exact (hlen u hu).1)]
  rw [unpack_header_wire c ht]
  simp [Cmdu.used, hslots]

/-- C1 (as the code has it). Round trip of `cmdu_pack` and `cmdu_unpack`: for every
CMDU within the bounds of the data model none of whose TLVs has the type 0 of
the end-of-message record, and every capacity for which `cmdu_pack` succeeds and
returns `n`, `cmdu_unpack` on the first `n` bytes written succeeds and yields the
same message type, message id, fragment fields and TLV count, and the same TLVs
in the same order, each with its type, its `len` and its first `len` value bytes. -/
theorem cmdu_roundtrip (c : Cmdu) (buf_len n : Nat) (m0 : Mem) (hb : c.bounded)
    (ht : c.typed) (hnz : ∀ t ∈ c.used, t.type ≠ I1905_TLV_END_OF_MESSAGE)
    (h : (cmdu_pack c buf_len).1 = some n) :
    cmdu_unpack ((Mem.replay m0 (cmdu_pack c buf_len).2).first n)
      = Ret.ok { c with tlvs := c.used.map Tlv.trim } := by
  rw [(cmdu_pack_bytes c buf_len n m0 hb h).2.2]
  exact cmdu_unpack_wire_frame c hb ht hnz

theorem cmdu_roundtrip_witness :
    (⟨3, 0x1234, 0, true, 1, [⟨1, 2, [9, 8, 7]⟩]⟩ : Cmdu).bounded ∧
    (cmdu_pack ⟨3, 0x1234, 0, true, 1, [⟨1, 2, [9, 8, 7]⟩]⟩ 20).1 = some 15 ∧
    cmdu_unpack
        ((Mem.replay (fun _ => 0) (cmdu_pack ⟨3, 0x1234, 0, true, 1, [⟨1, 2, [9, 8, 7]⟩]⟩ 20).2).first 15)
      = Ret.ok { (⟨3, 0x1234, 0, true, 1, [⟨1, 2, [9, 8, 7]⟩]⟩ : Cmdu) with
          tlvs := (Cmdu.used ⟨3, 0x1234, 0, true, 1, [⟨1, 2, [9, 8, 7]⟩]⟩).map Tlv.trim } :=
  ⟨by decide, by decide,
    cmdu_roundtrip _ 20 15 (fun _ => 0) (by decide) (by decide) (by decide) (by decide)⟩

/-- C1 (counterexample). A CMDU within the bounds whose only TLV has type 0 and
length 0 is encoded in 13 bytes, and decoding these bytes yields `tlv_count` 0,
not 1: the decoder takes the TLV for the end-of-message record. -/
theorem cmdu_roundtrip_fails_on_type_zero :
    (⟨3, 0x1234, 0, true, 1, [⟨0, 0, []⟩]⟩ : Cmdu).bounded ∧
    (⟨3, 0x1234, 0, true, 1, [⟨0, 0, []⟩]⟩ : Cmdu).typed ∧
    (cmdu_pack ⟨3, 0x1234, 0, true, 1, [⟨0, 0, []⟩]⟩ 1600).1 = some 13 ∧
    cmdu_unpack
        ((Mem.replay (fun _ => 0) (cmdu_pack ⟨3, 0x1234, 0, true, 1, [⟨0, 0, []⟩]⟩ 1600).2).first 13)
      = Ret.ok ⟨3, 0x1234, 0, true, 0, []⟩ := by
  decide

/-! ## Message ids and `send_cmdu` -/

theorem next_id_eq (ctx : Ctx) (h : ctx.next_message_id < 65536) :
    next_id ctx = (succ_id ctx.next_message_id,
      { ctx with next_message_id := succ_id ctx.next_message_id }) := by
  unfold next_id succ_id
  by_cases hc : ctx.next_message_id < 65535
  · have e : (ctx.next_message_id + 1) % 65536 = ctx.next_message_id + 1 :=
      Nat.mod_eq_of_lt (by omega)
    simp only [e, if_pos hc]
    rw [if_neg (by omega)]
  · have e : ctx.next_message_id = 65535 := by omega
    simp [e]

theorem send_cmdu_ctx (ctx : Ctx) (env : SendEnv) (cmdu : Cmdu) :
    (send_cmdu ctx env cmdu).ctx = (next_id ctx).2 ∧
    (send_cmdu ctx env cmdu).cmdu = { cmdu with message_id := (next_id ctx).1 } := by
  unfold send_cmdu
  simp only []
  generalize cmdu_pack { cmdu with message_id := (next_id ctx).1 } I1905_MAX_FRAME_SIZE = p
  rcases p with ⟨r, log⟩
  cases r with
  | none => exact ⟨rfl, rfl⟩
  | some n =>
    simp only []
    split_ifs <;> exact ⟨rfl, rfl⟩

/-- C8. Message-id sequencing of `next_id` as used by `send_cmdu`: for every counter
value `c` of a context, the id assigned by the next send is `c + 1` when `c` is
below 65535 and 1 when `c` is 65535, and the counter is set to that id; no send
produces the id 0, and the id of the send that follows on the same context is
the successor of this id in the same sense. -/
theorem send_cmdu_message_id (ctx : Ctx) (env env2 : SendEnv) (cmdu cmdu2 : Cmdu)
    (h : ctx.next_message_id < 65536) :
    (send_cmdu ctx env cmdu).cmdu.message_id
        = (if ctx.next_message_id < 65535 then ctx.next_message_id + 1 else 1) ∧
    (send_cmdu ctx env cmdu).ctx.next_message_id = (send_cmdu ctx env cmdu).cmdu.message_id ∧
    (send_cmdu ctx env cmdu).cmdu.message_id ≠ 0 ∧
    (send_cmdu ctx env cmdu).cmdu.message_id < 65536 ∧
    (send_cmdu (send_cmdu ctx env cmdu).ctx env2 cmdu2).cmdu.message_id
        = (if (send_cmdu ctx env cmdu).cmdu.message_id < 65535
            then (send_cmdu ctx env cmdu).cmdu.message_id + 1 else 1) := by
  have h1 := send_cmdu_ctx ctx env cmdu
  have h2 := send_cmdu_ctx (send_cmdu ctx env cmdu).ctx env2 cmdu2
  have hlt : (send_cmdu ctx env cmdu).ctx.next_message_id < 65536 := by
    rw [h1.1, next_id_eq ctx h]; simp only [succ_id]; split_ifs <;> omega
  rw [h2.2, next_id_eq _ hlt, h1.1, h1.2, next_id_eq ctx h]
  refine ⟨rfl, rfl, ?_, ?_, rfl⟩
  · simp only [succ_id]; split_ifs <;> omega
  · simp only [succ_id]; split_ifs <;> omega

theorem send_cmdu_message_id_witness :
    (send_cmdu ⟨3, 19050, Role.agent, [2, 0, 0, 0, 0, 0x10], none, 0, 65535⟩
        ⟨true, fun d => d.length, fun _ => 0⟩ (build_cmdu_common 2)).cmdu.message_id = 1 :=
  (send_cmdu_message_id ⟨3, 19050, Role.agent, [2, 0, 0, 0, 0, 0x10], none, 0, 65535⟩
    ⟨true, fun d => d.length, fun _ => 0⟩ ⟨true, fun d => d.length, fun _ => 0⟩
    (build_cmdu_common 2) (build_cmdu_common 2) (by decide)).1

theorem frame_size_message_id (c : Cmdu) (id : Nat) :
    frame_size { c with message_id := id } = frame_size c := rfl

/-- C9. Postcondition of `send_cmdu`: it hands at most one datagram to `sendto`;
it hands over none and returns -1 when the encoding does not fit in 1600 bytes
or when the destination does not parse; otherwise it hands over exactly one
datagram, and that datagram is the `cmdu_pack` encoding (the wire frame) of the
CMDU with its `message_id` replaced by the id `next_id` assigns, whatever
`message_id` the CMDU came with. -/
theorem send_cmdu_post (ctx : Ctx) (env : SendEnv) (cmdu : Cmdu) (hb : cmdu.bounded) :
    (send_cmdu ctx env cmdu).sent.length ≤ 1 ∧
    (frame_size cmdu > I1905_MAX_FRAME_SIZE ∨ env.inet_aton_ok = false →
      (send_cmdu ctx env cmdu).sent = [] ∧ (send_cmdu ctx env cmdu).ret = -1) ∧
    (¬ (frame_size cmdu > I1905_MAX_FRAME_SIZE ∨ env.inet_aton_ok = false) →
      (send_cmdu ctx env cmdu).sent =
        [(Mem.replay env.frame0
            (cmdu_pack { cmdu with message_id := (next_id ctx).1 } I1905_MAX_FRAME_SIZE).2).first
          (frame_size cmdu)] ∧
      (send_cmdu ctx env cmdu).sent = [wire_frame { cmdu with message_id := (next_id ctx).1 }]) := by
  have hb2 : ({ cmdu with message_id := (next_id ctx).1 } : Cmdu).bounded := hb
  have hret := cmdu_pack_ret { cmdu with message_id := (next_id ctx).1 } I1905_MAX_FRAME_SIZE hb.2.1
  rw [frame_size_message_id] at hret
  have hbytes := fun n h => cmdu_pack_bytes _ I1905_MAX_FRAME_SIZE n env.frame0 hb2 h
  unfold send_cmdu
  rcases env with ⟨dst_ok, sendto, frame0⟩
  simp only [] at hbytes ⊢
  generalize cmdu_pack { cmdu with message_id := (next_id ctx).1 } I1905_MAX_FRAME_SIZE = p
    at hret hbytes ⊢
  rcases p with ⟨r, log⟩
  simp only [] at hret hbytes ⊢
  by_cases hf : frame_size cmdu > I1905_MAX_FRAME_SIZE
  · rw [if_pos hf] at hret
    subst hret
    simp [hf]
  · rw [if_neg hf] at hret
    subst hret
    have hb3 := (hbytes _ rfl).2.2
    cases dst_ok with
    | false => simp
    | true => simp [hf, hb3]

theorem send_cmdu_post_witness :
    (⟨2, 0x9999, 0, true, 1, [⟨1, 2, [9, 8]⟩]⟩ : Cmdu).bounded ∧
    (send_cmdu ⟨3, 19050, Role.agent, [2, 0, 0, 0, 0, 0x10], none, 0, 7⟩
        ⟨true, fun d => d.length, fun _ => 0⟩
        ⟨2, 0x9999, 0, true, 1, [⟨1, 2, [9, 8]⟩]⟩).sent
      = [wire_frame { (⟨2, 0x9999, 0, true, 1, [⟨1, 2, [9, 8]⟩]⟩ : Cmdu) with
          message_id := (next_id ⟨3, 19050, Role.agent, [2, 0, 0, 0, 0, 0x10], none, 0, 7⟩).1 }] :=
  ⟨by decide,
    ((send_cmdu_post ⟨3, 19050, Role.agent, [2, 0, 0, 0, 0, 0x10], none, 0, 7⟩
      ⟨true, fun d => d.length, fun _ => 0⟩ ⟨2, 0x9999, 0, true, 1, [⟨1, 2, [9, 8]⟩]⟩
      (by decide)).2.2 (by decide)).2⟩

/-! ## The builder `i1905_send_ap_autoconfig_wsc` -/

/-- C10 (failing input). With a payload length of 1025 `i1905_tlv_set_wsc` fails and
leaves the local TLV as it was; `i1905_send_ap_autoconfig_wsc` does not look at
that result, appends the TLV and sends: here, with a zeroed local TLV, a 13-byte
datagram goes out and the function returns 0. -/
theorem autoconfig_wsc_oversized_sends :
    (i1905_tlv_set_wsc default (some (List.replicate 1025 0xAA)) 1025).1 = -1 ∧
    (i1905_send_ap_autoconfig_wsc ⟨3, 19050, Role.agent, [2, 0, 0, 0, 0, 0x10], none, 0, 7⟩
        ⟨true, fun d => d.length, fun _ => 0⟩ (some (List.replicate 1025 0xAA)) 1025 default).ret
      = 0 ∧
    (i1905_send_ap_autoconfig_wsc ⟨3, 19050, Role.agent, [2, 0, 0, 0, 0, 0x10], none, 0, 7⟩
        ⟨true, fun d => d.length, fun _ => 0⟩ (some (List.replicate 1025 0xAA)) 1025 default).sent
      = [[0, 0, 8, 0, 8, 0, 0x80, 0, 0, 0, 0, 0, 0]] := by
  decide

/-! ## Bounds of a decoded CMDU, the header-only frame, the TLV setters -/

theorem unpack_loop_inv (buf : List Nat) :
    ∀ (fuel pos : Nat) (out r : Cmdu), UnpackInv buf pos out →
      unpack_loop buf fuel pos out = Ret.ok r →
      ∃ p, UnpackInv buf p r := by
  intro fuel
  induction fuel with
  | zero => intro pos out r _ h; simp [unpack_loop] at h
  | succ a ih =>
    intro pos out r hinv h
    rw [unpack_loop] at h
    by_cases hg : pos + 3 ≤ buf.length
    · simp only [if_pos hg] at h
      split_ifs at h with h0 h1 h2 h3
      · injection h with h; subst h; exact ⟨pos, hinv⟩
      · apply ih _ _ _ _ h
        obtain ⟨i1, i2, i3, i4, i5⟩ := hinv
        refine ⟨?_, ?_, ?_, ?_, ?_⟩
        · simp only [List.length_append, List.length_singleton]; omega
        · simp only []; omega
        · intro t ht
          simp only [List.mem_append, List.mem_singleton] at ht
          rcases ht with ht | rfl
          · exact i3 t ht
          · refine ⟨by simp only []; omega, h0, ?_⟩
            simp only [List.length_take, List.length_drop]
            omega
        · simp only [records_size, List.map_append, List.sum_append, List.map_cons,
            List.map_nil, List.sum_cons, List.sum_nil] at i4 ⊢
          omega
        · omega
    · simp only [if_neg hg] at h
      injection h with h; subst h; exact ⟨pos, hinv⟩

/-- C12. Every CMDU that `cmdu_unpack` returns respects the bounds of the data
model: `tlv_count` is at most 16, every one of the `tlv_count` TLVs has `len` at
most 1024 and a type other than end-of-message, and 7 plus the sum of `3 + len`
over those TLVs is at most the buffer length. -/
theorem cmdu_unpack_bounds (buf : List Nat) (out : Cmdu) (h : cmdu_unpack buf = Ret.ok out) :
    out.tlv_count ≤ I1905_MAX_TLVS ∧ out.tlvs.length = out.tlv_count ∧
    (∀ t ∈ out.used, t.len ≤ I1905_MAX_TLV_VALUE ∧ t.type ≠ I1905_TLV_END_OF_MESSAGE) ∧
    7 + (out.used.map (fun t => 3 + t.len)).sum ≤ buf.length := by
  unfold cmdu_unpack at h
  by_cases h7 : buf.length < 7
  · rw [if_pos h7] at h; exact absurd h (by simp)
  · rw [if_neg h7] at h
    have h0 : UnpackInv buf 7 (unpack_header buf) := by
      refine ⟨rfl, by simp [unpack_header], ?_, by simp [unpack_header, records_size], by omega⟩
      intro t ht; simp [unpack_header] at ht
    obtain ⟨p, i1, i2, i3, i4, i5⟩ := unpack_loop_inv buf _ _ _ _ h0 h
    have hu : out.used = out.tlvs := by simp [Cmdu.used, i1]
    rw [hu]
    refine ⟨i2, i1.symm, fun t ht => ⟨(i3 t ht).1, (i3 t ht).2.1⟩, ?_⟩
    unfold records_size at i4
    omega

theorem cmdu_unpack_bounds_witness :
    (1 : Nat) ≤ I1905_MAX_TLVS ∧
    7 + ((Cmdu.used ⟨3, 0x1234, 0, true, 1, [⟨1, 2, [9, 8]⟩]⟩).map (fun t => 3 + t.len)).sum
      ≤ [0, 0, 3, 0x12, 0x34, 0, 0x80, 1, 0, 2, 9, 8, 0, 0, 0].length :=
  ⟨(cmdu_unpack_bounds [0, 0, 3, 0x12, 0x34, 0, 0x80, 1, 0, 2, 9, 8, 0, 0, 0]
      ⟨3, 0x1234, 0, true, 1, [⟨1, 2, [9, 8]⟩]⟩ (by decide)).1,
    (cmdu_unpack_bounds [0, 0, 3, 0x12, 0x34, 0, 0x80, 1, 0, 2, 9, 8, 0, 0, 0]
      ⟨3, 0x1234, 0, true, 1, [⟨1, 2, [9, 8]⟩]⟩ (by decide)).2.2.2⟩

theorem and_0x80_eq_testBit (b : Nat) : ((b &&& 0x80) != 0) = b.testBit 7 := by
  have h := Nat.and_two_pow b 7
  norm_num at h
  rw [h]
  cases b.testBit 7 <;> simp

/-- C17. Scenario D: on a 10-byte buffer made of any 7-byte header followed by
the end-of-message record 0x00 0x00 0x00, `cmdu_unpack` succeeds with `tlv_count`
0, `message_type` the big-endian value of bytes 1-2, `message_id` the big-endian
value of bytes 3-4, `fragment_id` byte 5, and `last_fragment` true exactly when
bit 7 of byte 6 is set. -/
theorem cmdu_unpack_header_eom (hdr : List Nat) (h7 : hdr.length = 7)
    (hb : ∀ b ∈ hdr, b < 256) :
    cmdu_unpack (hdr ++ [0x00, 0x00, 0x00]) =
      Ret.ok { message_type := hdr.getD 1 0 * 256 + hdr.getD 2 0
               message_id := hdr.getD 3 0 * 256 + hdr.getD 4 0
               fragment_id := hdr.getD 5 0
               last_fragment := (hdr.getD 6 0).testBit 7
               tlv_count := 0
               tlvs := [] } := by
  have hl : Layout (hdr ++ [0x00, 0x00, 0x00]) hdr [] (I1905_TLV_END_OF_MESSAGE :: 0 :: 0 :: []) :=
    ⟨h7, by simp, by simp [I1905_TLV_END_OF_MESSAGE]⟩
  rw [cmdu_unpack_eom _ _ _ 0 0 [] hl (by simp) (by simp)]
  have g : ∀ k, k < 7 → hdr.getD k 0 < 256 := by
    intro k hk
    apply hb
    rw [List.getD_eq_getElem _ _ (by omega)]
    exact List.getElem_mem _
  simp only [unpack_header, be16_eq _ _ (g 2 (by omega)), be16_eq _ _ (g 4 (by omega)),
    and_0x80_eq_testBit, List.length_nil]

theorem cmdu_unpack_header_eom_witness :
    cmdu_unpack ([0, 0, 3, 0x12, 0x34, 5, 0x81] ++ [0x00, 0x00, 0x00]) =
      Ret.ok { message_type := 3, message_id := 0x1234, fragment_id := 5,
               last_fragment := true, tlv_count := 0, tlvs := [] } :=
  cmdu_unpack_header_eom [0, 0, 3, 0x12, 0x34, 5, 0x81] (by decide) (by decide)

/-- C16. `i1905_tlv_set_wsc` validates before writing: for every TLV and every
non-null payload of `len` bytes it fails if and only if `len` is greater than
1024, and then the TLV is left unchanged; on success the TLV has type 0x0A, `len`
equal to `len`, and its first `len` value bytes equal to the payload. -/
theorem i1905_tlv_set_wsc_post (tlv : Tlv) (p : List Nat) (len : Nat) (hp : p.length = len) :
    ((i1905_tlv_set_wsc tlv (some p) len).1 = -1 ↔ len > I1905_MAX_TLV_VALUE) ∧
    (len > I1905_MAX_TLV_VALUE → (i1905_tlv_set_wsc tlv (some p) len).2 = tlv) ∧
    (¬ len > I1905_MAX_TLV_VALUE →
      (i1905_tlv_set_wsc tlv (some p) len).1 = 0 ∧
      (i1905_tlv_set_wsc tlv (some p) len).2.type = 0x0A ∧
      (i1905_tlv_set_wsc tlv (some p) len).2.len = len ∧
      (i1905_tlv_set_wsc tlv (some p) len).2.value.take len = p) := by
  have e : i1905_tlv_set_wsc tlv (some p) len =
      if len > I1905_MAX_TLV_VALUE then (-1, tlv)
      else (0, { type := I1905_TLV_WSC, len := len % 65536,
                 value := bytes_of p len ++ tlv.value.drop len }) := rfl
  rw [e]
  by_cases h : len > I1905_MAX_TLV_VALUE
  · rw [if_pos h]
    exact ⟨⟨fun _ => h, fun _ => rfl⟩, fun _ => rfl, fun hn => absurd h hn⟩
  · rw [if_neg h]
    refine ⟨⟨fun hc => absurd hc (show ¬ ((0 : Int) = -1) by decide), fun hc => absurd hc h⟩,
      fun hc => absurd hc h, fun _ => ⟨rfl, rfl, ?_, ?_⟩⟩
    · unfold I1905_MAX_TLV_VALUE at h
      exact Nat.mod_eq_of_lt (by omega)
    · simp only []
      rw [bytes_of_eq_take p len (by omega), ← hp, List.take_length, List.take_left]

theorem i1905_tlv_set_wsc_post_witness :
    (i1905_tlv_set_wsc ⟨7, 3, [1, 2, 3, 4, 5]⟩ (some [9, 8]) 2).2 = ⟨0x0A, 2, [9, 8, 3, 4, 5]⟩ ∧
    (i1905_tlv_set_wsc ⟨7, 3, [1, 2, 3, 4, 5]⟩ (some [9, 8]) 2).2.value.take 2 = [9, 8] :=
  ⟨by decide,
    ((i1905_tlv_set_wsc_post ⟨7, 3, [1, 2, 3, 4, 5]⟩ [9, 8] 2 (by decide)).2.2 (by decide)).2.2.2⟩

theorem bytes_of_six (m : List Nat) (h : m.length = 6) : bytes_of m 6 = m := by
  rw [bytes_of_eq_take m 6 (by omega), ← h, List.take_length]

/-- C15. Scenario B: for every pair of 6-byte addresses, `i1905_tlv_set_device_info`
with non-null inputs succeeds and sets type 0x09, `len` 15, and the first 15 value
bytes to the local address, then 0x01, then the interface address, then 0x00 0x00. -/
theorem i1905_tlv_set_device_info_post (tlv : Tlv) (al_mac iface_mac : List Nat)
    (ha : al_mac.length = 6) (hi : iface_mac.length = 6) :
    (i1905_tlv_set_device_info tlv (some al_mac) (some iface_mac)).1 = 0 ∧
    (i1905_tlv_set_device_info tlv (some al_mac) (some iface_mac)).2.type = 0x09 ∧
    (i1905_tlv_set_device_info tlv (some al_mac) (some iface_mac)).2.len = 15 ∧
    (i1905_tlv_set_device_info tlv (some al_mac) (some iface_mac)).2.value.take 15
      = al_mac ++ [0x01] ++ iface_mac ++ [0x00, 0x00] := by
  refine ⟨rfl, rfl, rfl, ?_⟩
  simp only [i1905_tlv_set_device_info, bytes_of_six _ ha, bytes_of_six _ hi]
  have hl : (al_mac ++ [1] ++ iface_mac ++ [0x00, 0x00]).length = 15 := by
    simp [ha, hi]
  rw [← hl, List.take_left]

theorem i1905_tlv_set_device_info_post_witness :
    (i1905_tlv_set_device_info default (some [0xaa, 0xbb, 0xcc, 0xdd, 0xee, 0xff])
        (some [0x11, 0x22, 0x33, 0x44, 0x55, 0x66])).2.value.take 15
      = [0xaa, 0xbb, 0xcc, 0xdd, 0xee, 0xff] ++ [0x01]
        ++ [0x11, 0x22, 0x33, 0x44, 0x55, 0x66] ++ [0x00, 0x00] :=
  (i1905_tlv_set_device_info_post default [0xaa, 0xbb, 0xcc, 0xdd, 0xee, 0xff]
    [0x11, 0x22, 0x33, 0x44, 0x55, 0x66] (by decide) (by decide)).2.2.2

/-! ## What `cmdu_pack` leaves behind when it fails -/

theorem take_succ_drop (tlvs : List Tlv) (i k : Nat) (h : i < tlvs.length) :
    (tlvs.drop i).take (k + 1) = tlvs.getD i default :: (tlvs.drop (i + 1)).take k := by
  rw [List.drop_eq_getElem_cons h, List.take_succ_cons]
  simp [List.getElem?_eq_getElem h]

/-- The state in which the loop of `cmdu_pack` ends: the records of the first `k`
TLVs are stored, and `k` falls short of `n` exactly when the loop returned -1
because the next record does not fit. -/
theorem pack_tlvs_state (tlvs : List Tlv) (buf_len : Nat) :
    ∀ (n i : Nat) (s : PackSt), i + n ≤ tlvs.length →
      ∃ k, k ≤ n ∧
        (pack_tlvs tlvs buf_len n i s).2 =
          { pos := s.pos + records_size ((tlvs.drop i).take k),
            log := s.log ++ stores_at s.pos ((((tlvs.drop i).take k).map raw_tlv).flatten) } ∧
        ((pack_tlvs tlvs buf_len n i s).1 = true ↔ k = n) ∧
        (k < n → buf_len < s.pos + records_size ((tlvs.drop i).take k)
          + (3 + (tlvs.getD (i + k) default).len)) ∧
        (s.pos ≤ buf_len → s.pos + records_size ((tlvs.drop i).take k) ≤ buf_len) := by
  intro n
  induction n with
  | zero =>
    intro i s _
    exact ⟨0, Nat.le_refl 0, by simp [pack_tlvs, records_size, stores_at], by simp [pack_tlvs],
      fun h => absurd h (by omega), fun h => by simpa [records_size] using h⟩
  | succ n ih =>
    intro i s hi
    rw [pack_tlvs]
    simp only []
    by_cases hc : s.pos + 3 + (tlvs.getD i default).len > buf_len
    · rw [if_pos hc]
      refine ⟨0, by omega, by simp [records_size, stores_at], by simp, ?_, ?_⟩
      · intro _
        simp only [List.take_zero, records_size, List.map_nil, List.sum_nil, Nat.add_zero]
        omega
      · intro h; simpa [records_size] using h
    · rw [if_neg hc, pack_step_log]
      obtain ⟨k, hk, hst, hflag, hnext, hfit⟩ := ih (i + 1)
        { pos := s.pos + 3 + (tlvs.getD i default).len,
          log := s.log ++ stores_at s.pos (raw_tlv (tlvs.getD i default)) }
        (by omega)
      have hts := take_succ_drop tlvs i k (by omega)
      simp only [] at hst hflag hnext hfit ⊢
      refine ⟨k + 1, by omega, ?_, ?_, ?_, ?_⟩
      · rw [hst, hts]
        simp only [records_size, List.map_cons, List.sum_cons, List.flatten_cons,
          stores_at_append, raw_tlv_length, List.append_assoc, PackSt.mk.injEq]
        constructor
        · omega
        · congr 3
          omega
      · rw [hflag]; omega
      · intro hlt
        have := hnext (by omega)
        rw [hts]
        simp only [records_size, List.map_cons, List.sum_cons] at this ⊢
        rw [show i + (k + 1) = i + 1 + k by omega]
        omega
      · intro hle
        have := hfit (by omega)
        rw [hts]
        simp only [records_size, List.map_cons, List.sum_cons] at this ⊢
        omega

theorem frame_head_raw (c : Cmdu) (k : Nat) (hb : c.bounded) (hk : k ≤ c.tlv_count) :
    c.used.take k = (c.tlvs.drop 0).take k ∧
    ((((c.tlvs.drop 0).take k).map raw_tlv).flatten
      = ((c.used.take k).map tlv_wire).flatten) ∧
    (frame_head c k).length = 7 + records_size ((c.tlvs.drop 0).take k) := by
  have e : c.used.take k = (c.tlvs.drop 0).take k := by
    simp [Cmdu.used, List.take_take, hk]
  have hmem : ∀ t ∈ c.used.take k, t.len ≤ t.value.length :=
    fun t ht => (hb.2.2 t (List.mem_of_mem_take ht)).2
  refine ⟨e, ?_, ?_⟩
  · rw [← e]
    congr 1
    apply List.map_congr_left
    intro t ht
    exact raw_tlv_eq_wire t (hmem t ht)
  · rw [frame_head, List.length_append, wire_flatten_length _ hmem, e]
    rfl

/-- The stores of a `cmdu_pack` that returns -1 on a capacity of at least 7. -/
theorem cmdu_pack_error_state (c : Cmdu) (buf_len : Nat) (hb : c.bounded) (h7 : 7 ≤ buf_len)
    (herr : (cmdu_pack c buf_len).1 = none) :
    ∃ k, k ≤ c.tlv_count ∧ (cmdu_pack c buf_len).2 = stores_at 0 (frame_head c k) ∧
      (frame_head c k).length ≤ buf_len ∧
      (k < c.tlv_count →
        buf_len < (frame_head c k).length + (3 + (c.tlvs.getD k default).len)) ∧
      (k = c.tlv_count → buf_len < (frame_head c k).length + 3) := by
  rw [cmdu_pack_unfold, if_neg (by omega)] at herr ⊢
  obtain ⟨k, hk, hst, hflag, hnext, hfit⟩ :=
    pack_tlvs_state c.tlvs buf_len c.tlv_count 0 (header_state c) (by have := hb.2.1; omega)
  obtain ⟨e1, e2, e3⟩ := frame_head_raw c k hb hk
  have hp : (header_state c).pos = 7 := rfl
  rw [hp] at hst hnext hfit
  rw [Nat.zero_add] at hnext
  have hlog : (header_state c).log ++
      stores_at 7 ((((c.tlvs.drop 0).take k).map raw_tlv).flatten) = stores_at 0 (frame_head c k) := by
    rw [e2, frame_head, stores_at_append]
    simp only [header_state, wire_header, hi8_eq, lo8_eq, List.length_cons, List.length_nil]
  rcases hr : pack_tlvs c.tlvs buf_len c.tlv_count 0 (header_state c) with ⟨b, s1⟩
  rw [hr] at hst hflag herr
  simp only [] at hst hflag herr ⊢
  subst hst
  cases b with
  | false =>
    have hne : k ≠ c.tlv_count := fun h => by simpa using hflag.2 h
    refine ⟨k, hk, hlog, by rw [e3]; exact hfit h7, fun hlt => by rw [e3]; exact hnext hlt,
      fun h => absurd h hne⟩
  | true =>
    have hkn : k = c.tlv_count := hflag.1 rfl
    simp only [] at herr ⊢
    by_cases hf : 7 + records_size ((c.tlvs.drop 0).take k) + 3 > buf_len
    · rw [if_pos hf]
      refine ⟨k, hk, hlog, by rw [e3]; exact hfit h7, fun hlt => absurd hkn (by omega),
        fun _ => by rw [e3]; omega⟩
    · rw [if_neg hf] at herr
      exact absurd herr (by simp)

/-- C13 (as the code has it). `cmdu_pack` checks the capacity record by record and
stores as it goes: when it returns the error on a capacity below 6 the
destination is left as it was, and when it returns the error on a capacity of at
least 7 the destination holds the head of the frame (the 7 header bytes and the
records of the leading TLVs that fit), inside the capacity, and is left as it
was behind that head. -/
theorem cmdu_pack_error_leaves_head (c : Cmdu) (buf_len : Nat) (m0 : Mem) (hb : c.bounded)
    (h6 : buf_len ≠ 6) (herr : (cmdu_pack c buf_len).1 = none) :
    (buf_len < 6 ∧ ∀ i, Mem.replay m0 (cmdu_pack c buf_len).2 i = m0 i) ∨
    (7 ≤ buf_len ∧ ∃ k, k ≤ c.tlv_count ∧ (frame_head c k).length ≤ buf_len ∧
      (Mem.replay m0 (cmdu_pack c buf_len).2).first (frame_head c k).length = frame_head c k ∧
      (∀ i, (frame_head c k).length ≤ i → Mem.replay m0 (cmdu_pack c buf_len).2 i = m0 i) ∧
      (k < c.tlv_count →
        buf_len < (frame_head c k).length + (3 + (c.tlvs.getD k default).len)) ∧
      (k = c.tlv_count → buf_len < (frame_head c k).length + 3)) := by
  by_cases h : buf_len < 6
  · left
    refine ⟨h, fun i => ?_⟩
    rw [cmdu_pack_unfold, if_pos h]
    rfl
  · right
    have h7 : 7 ≤ buf_len := by omega
    obtain ⟨k, hk, hlog, hin, hnext, hall⟩ := cmdu_pack_error_state c buf_len hb h7 herr
    refine ⟨h7, k, hk, hin, ?_, ?_, hnext, hall⟩
    · rw [hlog, first_replay_stores]
    · intro i hi
      rw [hlog, replay_stores_at, if_neg (by omega)]

theorem cmdu_pack_error_leaves_head_witness :
    (cmdu_pack ⟨3, 0x1234, 0, true, 2, [⟨1, 2, [9, 8]⟩, ⟨2, 3, [7, 6, 5]⟩]⟩ 14).1 = none ∧
    (((14 : Nat) < 6 ∧ ∀ i, Mem.replay (fun _ => 0) (cmdu_pack ⟨3, 0x1234, 0, true, 2, [⟨1, 2, [9, 8]⟩, ⟨2, 3, [7, 6, 5]⟩]⟩ 14).2 i = 0) ∨
    ((7 : Nat) ≤ 14 ∧ ∃ k, k ≤ (2 : Nat) ∧
      (frame_head ⟨3, 0x1234, 0, true, 2, [⟨1, 2, [9, 8]⟩, ⟨2, 3, [7, 6, 5]⟩]⟩ k).length ≤ 14 ∧
      (Mem.replay (fun _ => 0) (cmdu_pack ⟨3, 0x1234, 0, true, 2, [⟨1, 2, [9, 8]⟩, ⟨2, 3, [7, 6, 5]⟩]⟩ 14).2).first
          (frame_head ⟨3, 0x1234, 0, true, 2, [⟨1, 2, [9, 8]⟩, ⟨2, 3, [7, 6, 5]⟩]⟩ k).length
        = frame_head ⟨3, 0x1234, 0, true, 2, [⟨1, 2, [9, 8]⟩, ⟨2, 3, [7, 6, 5]⟩]⟩ k ∧
      (∀ i, (frame_head ⟨3, 0x1234, 0, true, 2, [⟨1, 2, [9, 8]⟩, ⟨2, 3, [7, 6, 5]⟩]⟩ k).length ≤ i →
        Mem.replay (fun _ => 0) (cmdu_pack ⟨3, 0x1234, 0, true, 2, [⟨1, 2, [9, 8]⟩, ⟨2, 3, [7, 6, 5]⟩]⟩ 14).2 i = 0) ∧
      (k < 2 → 14 < (frame_head ⟨3, 0x1234, 0, true, 2, [⟨1, 2, [9, 8]⟩, ⟨2, 3, [7, 6, 5]⟩]⟩ k).length
        + (3 + (([⟨1, 2, [9, 8]⟩, ⟨2, 3, [7, 6, 5]⟩] : List Tlv).getD k default).len)) ∧
      (k = 2 → 14 < (frame_head ⟨3, 0x1234, 0, true, 2, [⟨1, 2, [9, 8]⟩, ⟨2, 3, [7, 6, 5]⟩]⟩ k).length + 3))) :=
  ⟨by decide,
    cmdu_pack_error_leaves_head ⟨3, 0x1234, 0, true, 2, [⟨1, 2, [9, 8]⟩, ⟨2, 3, [7, 6, 5]⟩]⟩ 14 (fun _ => 0) (by decide) (by decide) (by decide)⟩

set_option maxRecDepth 100000 in
/-- C13 (counterexample). A CMDU with two TLVs of 1024 bytes does not fit in 1600
bytes, `cmdu_pack` returns the error, and the destination, zero before the call,
holds the message type at index 2 and the first TLV type at index 7 after it. -/
theorem cmdu_pack_error_changes_buffer :
    (cmdu_pack ⟨3, 0x1234, 0, true, 2,
        [⟨1, 1024, List.replicate 1024 0xAA⟩, ⟨2, 1024, List.replicate 1024 0xBB⟩]⟩ 1600).1 = none ∧
    Mem.replay (fun _ => 0) (cmdu_pack ⟨3, 0x1234, 0, true, 2,
        [⟨1, 1024, List.replicate 1024 0xAA⟩, ⟨2, 1024, List.replicate 1024 0xBB⟩]⟩ 1600).2 2 = 3 ∧
    Mem.replay (fun _ => 0) (cmdu_pack ⟨3, 0x1234, 0, true, 2,
        [⟨1, 1024, List.replicate 1024 0xAA⟩, ⟨2, 1024, List.replicate 1024 0xBB⟩]⟩ 1600).2 7 = 1 := by
  decide

/-! ## Round trip up to the first TLV of type 0 -/

theorem wire_frame_eq (c : Cmdu) :
    wire_frame c = wire_header c ++ (c.used.map tlv_wire).flatten ++ [0x00, 0x00, 0x00] := rfl

theorem trim_record (t : Tlv) (hnz : t.type ≠ I1905_TLV_END_OF_MESSAGE)
    (hl : t.len ≤ I1905_MAX_TLV_VALUE ∧ t.len ≤ t.value.length) : t.trim.record := by
  refine ⟨hnz, ?_, ?_⟩
  · simp [Tlv.trim, hl.2]
  · simp only [Tlv.trim, I1905_MAX_TLV_VALUE] at hl ⊢; omega

theorem map_wire_trim (ts : List Tlv) : (ts.map Tlv.trim).map tlv_wire = ts.map tlv_wire := by
  rw [List.map_map]
  apply List.map_congr_left
  intro t _
  simp [tlv_wire_trim]

/-- The decoder on the wire frame of a CMDU whose TLV `t0` is the first one with
the end-of-message type: it returns the TLVs before `t0`. -/
theorem cmdu_unpack_wire_frame_cut (c : Cmdu) (hb : c.bounded) (ht : c.typed)
    (pre : List Tlv) (t0 : Tlv) (post : List Tlv) (hsplit : c.used = pre ++ t0 :: post)
    (hpre : ∀ t ∈ pre, t.type ≠ I1905_TLV_END_OF_MESSAGE)
    (h0 : t0.type = I1905_TLV_END_OF_MESSAGE) :
    cmdu_unpack (wire_frame c)
      = Ret.ok { c with tlv_count := pre.length, tlvs := pre.map Tlv.trim } := by
  obtain ⟨h16, hslots, hlen⟩ := hb
  have hin : ∀ t ∈ pre, t ∈ c.used := fun t h => by rw [hsplit]; simp [h]
  have hl : Layout (wire_frame c) (wire_header c) (pre.map Tlv.trim)
      (I1905_TLV_END_OF_MESSAGE :: (t0.len / 256 % 256) :: (t0.len % 256) ::
        (t0.value.take t0.len ++ ((post.map tlv_wire).flatten ++ [0x00, 0x00, 0x00]))) := by
    refine ⟨rfl, ?_, ?_⟩
    · intro t htm
      obtain ⟨u, hu, rfl⟩ := List.mem_map.1 htm
      exact trim_record u (hpre u hu) (hlen u (hin u hu))
    · rw [wire_frame_eq, hsplit, map_wire_trim]
      simp [tlv_wire, h0]
  have hlen16 : pre.length ≤ I1905_MAX_TLVS := by
    have : c.used.length ≤ c.tlv_count := by simp [Cmdu.used]
    rw [hsplit] at this
    simp only [List.length_append, List.length_cons] at this
    omega
  rw [cmdu_unpack_eom _ _ _ _ _ _ hl (by simpa using hlen16)
    (by
      intro t htm
      obtain ⟨u, hu, rfl⟩ := List.mem_map.1 htm
      exact (hlen u (hin u hu)).1)]
  have hh := unpack_header_wire c ht
  rw [show wire_header c = [0x00, c.message_type / 256 % 256, c.message_type % 256,
      c.message_id / 256 % 256, c.message_id % 256, c.fragment_id,
      if c.last_fragment then 0x80 else 0x00] from rfl, hh]
  simp

/-- C20. Round trip restricted to TLVs that are not end-of-message: for every CMDU
within the bounds of the data model and every capacity on which `cmdu_pack`
succeeds, if all TLVs have a non-zero type then `cmdu_unpack` of the encoded
bytes succeeds and reproduces message type, message id, fragment id,
last-fragment flag, TLV count and every TLV (type, `len`, first `len` value
bytes); if instead some TLV has type 0, it returns only the TLVs that precede
the first such TLV. -/
theorem cmdu_roundtrip_until_type_zero (c : Cmdu) (buf_len n : Nat) (m0 : Mem)
    (hb : c.bounded) (ht : c.typed) (h : (cmdu_pack c buf_len).1 = some n) :
    ((∀ t ∈ c.used, t.type ≠ I1905_TLV_END_OF_MESSAGE) →
      cmdu_unpack ((Mem.replay m0 (cmdu_pack c buf_len).2).first n)
        = Ret.ok { c with tlvs := c.used.map Tlv.trim }) ∧
    (∀ (pre : List Tlv) (t0 : Tlv) (post : List Tlv), c.used = pre ++ t0 :: post →
      (∀ t ∈ pre, t.type ≠ I1905_TLV_END_OF_MESSAGE) → t0.type = I1905_TLV_END_OF_MESSAGE →
      cmdu_unpack ((Mem.replay m0 (cmdu_pack c buf_len).2).first n)
        = Ret.ok { c with tlv_count := pre.length, tlvs := pre.map Tlv.trim }) := by
  rw [(cmdu_pack_bytes c buf_len n m0 hb h).2.2]
  exact ⟨fun hnz => cmdu_unpack_wire_frame c hb ht hnz,
    fun pre t0 post hs hp h0 => cmdu_unpack_wire_frame_cut c hb ht pre t0 post hs hp h0⟩

theorem cmdu_roundtrip_until_type_zero_witness :
    cmdu_unpack ((Mem.replay (fun _ => 0)
        (cmdu_pack ⟨3, 0x1234, 0, true, 3, [⟨1, 2, [9, 8]⟩, ⟨0, 1, [7]⟩, ⟨2, 1, [6]⟩]⟩ 30).2).first 23)
      = Ret.ok { (⟨3, 0x1234, 0, true, 3, [⟨1, 2, [9, 8]⟩, ⟨0, 1, [7]⟩, ⟨2, 1, [6]⟩]⟩ : Cmdu) with
          tlv_count := [(⟨1, 2, [9, 8]⟩ : Tlv)].length,
          tlvs := [(⟨1, 2, [9, 8]⟩ : Tlv)].map Tlv.trim } :=
  (cmdu_roundtrip_until_type_zero ⟨3, 0x1234, 0, true, 3, [⟨1, 2, [9, 8]⟩, ⟨0, 1, [7]⟩, ⟨2, 1, [6]⟩]⟩
    30 23 (fun _ => 0) (by decide) (by decide) (by decide)).2
    [⟨1, 2, [9, 8]⟩] ⟨0, 1, [7]⟩ [⟨2, 1, [6]⟩] (by decide) (by decide) (by decide)

/-! ## The message builders -/

theorem next_id_lt (ctx : Ctx) : (next_id ctx).1 < 65536 := by
  unfold next_id
  simp only []
  split_ifs with h
  · simp
  · exact Nat.mod_lt _ (by norm_num)

theorem set_mac_trim (t0 : Tlv) (ty : Nat) (m : List Nat) (h : m.length = 6) :
    (i1905_tlv_set_mac t0 ty (some m)).2.trim = ⟨ty, 6, m⟩ := by
  simp only [i1905_tlv_set_mac, Tlv.trim, bytes_of_six m h]
  rw [← h, List.take_left]

theorem set_wsc_trim (t0 : Tlv) (p : List Nat) (h : p.length ≤ I1905_MAX_TLV_VALUE) :
    (i1905_tlv_set_wsc t0 (some p) p.length).2.trim = ⟨I1905_TLV_WSC, p.length, p⟩ := by
  have hm : p.length % 65536 = p.length := by
    unfold I1905_MAX_TLV_VALUE at h
    exact Nat.mod_eq_of_lt (by omega)
  simp only [i1905_tlv_set_wsc, if_neg (Nat.not_lt.2 h), Tlv.trim, hm,
    bytes_of_eq_take p p.length (Nat.le_refl _), List.take_length, List.take_left]

theorem set_device_info_trim (t0 : Tlv) (a m : List Nat) (ha : a.length = 6) (hm : m.length = 6) :
    (i1905_tlv_set_device_info t0 (some a) (some m)).2.trim
      = ⟨I1905_TLV_DEVICE_INFO, 15, a ++ [1] ++ m ++ [0x00, 0x00]⟩ := by
  simp only [i1905_tlv_set_device_info, Tlv.trim, bytes_of_six a ha, bytes_of_six m hm]
  have hl : (a ++ [1] ++ m ++ [0x00, 0x00]).length = 1 + 6 + 6 + 2 := by simp [ha, hm]
  have ht : (a ++ [1] ++ m ++ [0x00, 0x00] ++ t0.value.drop 15).take (1 + 6 + 6 + 2)
      = a ++ [1] ++ m ++ [0x00, 0x00] := by
    rw [← hl, List.take_left]
  rw [ht]

theorem send_cmdu_cmdu (ctx : Ctx) (env : SendEnv) (c : Cmdu) :
    (send_cmdu ctx env c).cmdu = { c with message_id := (next_id ctx).1 } :=
  (send_cmdu_ctx ctx env c).2

/-- C19. Each message builder assembles a fixed CMDU: for every context (with a
6-byte local address), 6-byte input addresses and contents of the local TLVs
before they are set, the CMDU handed to `send_cmdu` has fragment id 0,
last-fragment true, and: discovery the message type 0x0000 and the TLVs 0x01
`al_mac`, 0x02 `iface_mac`; notification 0x0001 with the same two TLVs; query
0x0002 with 0x01 `al_mac`; response 0x0003 with the 0x09 device-info of `al_mac`
and `iface_mac`; autoconfig-search 0x0006 with 0x02 `radio_id` and 0x0A of the
10-byte placeholder; autoconfig-response 0x0007 with 0x02 `radio_id`;
autoconfig-payload 0x0008 with 0x0A of the payload, for every payload of at most
1024 bytes. -/
theorem builders_fixed_cmdu (ctx : Ctx) (env : SendEnv) (iface_mac radio_id payload : List Nat)
    (t1 t2 : Tlv) (ha : ctx.al_mac.length = 6) (hi : iface_mac.length = 6)
    (hr : radio_id.length = 6) (hp : payload.length ≤ I1905_MAX_TLV_VALUE) :
    Built (i1905_send_topology_discovery ctx env (some iface_mac) t1 t2) 0x0000
      [⟨0x01, 6, ctx.al_mac⟩, ⟨0x02, 6, iface_mac⟩] ∧
    Built (i1905_send_topology_notification ctx env (some iface_mac) t1 t2) 0x0001
      [⟨0x01, 6, ctx.al_mac⟩, ⟨0x02, 6, iface_mac⟩] ∧
    Built (i1905_send_topology_query ctx env t1) 0x0002 [⟨0x01, 6, ctx.al_mac⟩] ∧
    Built (i1905_send_topology_response ctx env (some iface_mac) t1) 0x0003
      [⟨0x09, 15, ctx.al_mac ++ [0x01] ++ iface_mac ++ [0x00, 0x00]⟩] ∧
    Built (i1905_send_ap_autoconfig_search ctx env (some radio_id) t1 t2) 0x0006
      [⟨0x02, 6, radio_id⟩,
        ⟨0x0A, 10, [0x10, 0x47, 0x00, 0x06, 0x31, 0x39, 0x30, 0x35, 0x57, 0x53]⟩] ∧
    Built (i1905_send_ap_autoconfig_response ctx env (some radio_id) t1) 0x0007
      [⟨0x02, 6, radio_id⟩] ∧
    Built (i1905_send_ap_autoconfig_wsc ctx env (some payload) payload.length t1) 0x0008
      [⟨0x0A, payload.length, payload⟩] := by
  have hph : wsc_placeholder.length ≤ I1905_MAX_TLV_VALUE := by decide
  have hw : (i1905_tlv_set_wsc t2 (some [0x10, 0x47, 0x00, 0x06, 0x31, 0x39, 0x30, 0x35, 0x57, 0x53])
      10).2.trim = ⟨0x0A, 10, [0x10, 0x47, 0x00, 0x06, 0x31, 0x39, 0x30, 0x35, 0x57, 0x53]⟩ :=
    set_wsc_trim t2 wsc_placeholder hph
  refine ⟨?_, ?_, ?_, ?_, ?_, ?_, ?_⟩
  · simp only [Built, i1905_send_topology_discovery, send_cmdu_cmdu]
    refine ⟨rfl, rfl, rfl, rfl, ?_⟩
    simp only [build_cmdu_common, tlv_append, I1905_MAX_TLVS]
    simp [set_mac_trim _ _ _ ha, set_mac_trim _ _ _ hi, I1905_TLV_AL_MAC, I1905_TLV_MAC_ADDR]
  · simp only [Built, i1905_send_topology_notification, send_cmdu_cmdu]
    refine ⟨rfl, rfl, rfl, rfl, ?_⟩
    simp only [build_cmdu_common, tlv_append, I1905_MAX_TLVS]
    simp [set_mac_trim _ _ _ ha, set_mac_trim _ _ _ hi, I1905_TLV_AL_MAC, I1905_TLV_MAC_ADDR]
  · simp only [Built, i1905_send_topology_query, send_cmdu_cmdu]
    refine ⟨rfl, rfl, rfl, rfl, ?_⟩
    simp only [build_cmdu_common, tlv_append, I1905_MAX_TLVS]
    simp [set_mac_trim _ _ _ ha, I1905_TLV_AL_MAC]
  · simp only [Built, i1905_send_topology_response, send_cmdu_cmdu]
    refine ⟨rfl, rfl, rfl, rfl, ?_⟩
    simp only [build_cmdu_common, tlv_append, I1905_MAX_TLVS]
    simp [set_device_info_trim _ _ _ ha hi, I1905_TLV_DEVICE_INFO]
  · simp only [Built, i1905_send_ap_autoconfig_search, send_cmdu_cmdu]
    refine ⟨rfl, rfl, rfl, rfl, ?_⟩
    simp only [build_cmdu_common, tlv_append, I1905_MAX_TLVS]
    simp [set_mac_trim _ _ _ hr, hw, I1905_TLV_MAC_ADDR, I1905_TLV_WSC, wsc_placeholder]
  · simp only [Built, i1905_send_ap_autoconfig_response, send_cmdu_cmdu]
    refine ⟨rfl, rfl, rfl, rfl, ?_⟩
    simp only [build_cmdu_common, tlv_append, I1905_MAX_TLVS]
    simp [set_mac_trim _ _ _ hr, I1905_TLV_MAC_ADDR]
  · simp only [Built, i1905_send_ap_autoconfig_wsc, send_cmdu_cmdu]
    refine ⟨rfl, rfl, rfl, rfl, ?_⟩
    simp only [build_cmdu_common, tlv_append, I1905_MAX_TLVS]
    simp [set_wsc_trim _ _ hp, I1905_TLV_WSC]

theorem builders_fixed_cmdu_witness :
    Built (i1905_send_topology_discovery
        ⟨3, 19050, Role.agent, [0x02, 0, 0, 0, 0, 0x10], none, 0, 7⟩
        ⟨true, fun d => d.length, fun _ => 0⟩ (some [0x02, 0, 0, 0, 0, 0x20]) default default)
      0x0000 [⟨0x01, 6, [0x02, 0, 0, 0, 0, 0x10]⟩, ⟨0x02, 6, [0x02, 0, 0, 0, 0, 0x20]⟩] ∧
    Built (i1905_send_ap_autoconfig_wsc
        ⟨3, 19050, Role.agent, [0x02, 0, 0, 0, 0, 0x10], none, 0, 7⟩
        ⟨true, fun d => d.length, fun _ => 0⟩ (some [1, 2, 3]) 3 default)
      0x0008 [⟨0x0A, 3, [1, 2, 3]⟩] :=
  ⟨(builders_fixed_cmdu ⟨3, 19050, Role.agent, [0x02, 0, 0, 0, 0, 0x10], none, 0, 7⟩
      ⟨true, fun d => d.length, fun _ => 0⟩ [0x02, 0, 0, 0, 0, 0x20] [0x02, 0, 0, 0, 0, 0x30]
      [1, 2, 3] default default (by decide) (by decide) (by decide) (by decide)).1,
    (builders_fixed_cmdu ⟨3, 19050, Role.agent, [0x02, 0, 0, 0, 0, 0x10], none, 0, 7⟩
      ⟨true, fun d => d.length, fun _ => 0⟩ [0x02, 0, 0, 0, 0, 0x20] [0x02, 0, 0, 0, 0, 0x30]
      [1, 2, 3] default default (by decide) (by decide) (by decide) (by decide)).2.2.2.2.2.2⟩

/-- Encoding into the 1600-byte frame and decoding again, for a CMDU that fits
and has no TLV of the end-of-message type. -/
theorem roundtrip_frame (c : Cmdu) (m0 : Mem) (hb : c.bounded) (ht : c.typed)
    (hnz : ∀ t ∈ c.used, t.type ≠ I1905_TLV_END_OF_MESSAGE)
    (hfit : frame_size c ≤ I1905_MAX_FRAME_SIZE) :
    (cmdu_pack c I1905_MAX_FRAME_SIZE).1 = some (frame_size c) ∧
    cmdu_unpack ((Mem.replay m0 (cmdu_pack c I1905_MAX_FRAME_SIZE).2).first (frame_size c))
      = Ret.ok { c with tlvs := c.used.map Tlv.trim } := by
  have hr : (cmdu_pack c I1905_MAX_FRAME_SIZE).1 = some (frame_size c) := by
    rw [cmdu_pack_ret c _ hb.2.1, if_neg (by omega)]
  refine ⟨hr, ?_⟩
  rw [(cmdu_pack_bytes c _ _ m0 hb hr).2.2]
  exact cmdu_unpack_wire_frame c hb ht hnz

/-- C14. Scenario A, for every pair of 6-byte addresses: the CMDU that
`i1905_send_topology_discovery` builds from the local identity `al_mac` of the
context and an interface address `iface_mac`, encoded with `cmdu_pack` into 1600
bytes and decoded with `cmdu_unpack`, has message type 0x0000 and exactly 2 TLVs,
the first of type 0x01 with `len` 6 and value `al_mac`, the second of type 0x02
with `len` 6 and value `iface_mac`. -/
theorem topology_discovery_roundtrip (ctx : Ctx) (env : SendEnv) (iface_mac : List Nat)
    (al0 mac0 : Tlv) (m0 : Mem) (ha : ctx.al_mac.length = 6) (hi : iface_mac.length = 6) :
    (cmdu_pack (i1905_send_topology_discovery ctx env (some iface_mac) al0 mac0).cmdu
      I1905_MAX_FRAME_SIZE).1 = some 28 ∧
    cmdu_unpack ((Mem.replay m0
        (cmdu_pack (i1905_send_topology_discovery ctx env (some iface_mac) al0 mac0).cmdu
          I1905_MAX_FRAME_SIZE).2).first 28)
      = Ret.ok { message_type := 0x0000, message_id := (next_id ctx).1, fragment_id := 0,
                 last_fragment := true, tlv_count := 2,
                 tlvs := [⟨0x01, 6, ctx.al_mac⟩, ⟨0x02, 6, iface_mac⟩] } := by
  have hc : (i1905_send_topology_discovery ctx env (some iface_mac) al0 mac0).cmdu =
      { message_type := 0x0000, message_id := (next_id ctx).1, fragment_id := 0,
        last_fragment := true, tlv_count := 2,
        tlvs := [(i1905_tlv_set_mac al0 I1905_TLV_AL_MAC (some ctx.al_mac)).2,
                 (i1905_tlv_set_mac mac0 I1905_TLV_MAC_ADDR (some iface_mac)).2] } := by
    simp only [i1905_send_topology_discovery, send_cmdu_cmdu]
    rfl
  rw [hc]
  generalize hA : (i1905_tlv_set_mac al0 I1905_TLV_AL_MAC (some ctx.al_mac)).2 = A
  generalize hB : (i1905_tlv_set_mac mac0 I1905_TLV_MAC_ADDR (some iface_mac)).2 = B
  have hAt : A.trim = ⟨0x01, 6, ctx.al_mac⟩ := by rw [← hA]; exact set_mac_trim _ _ _ ha
  have hBt : B.trim = ⟨0x02, 6, iface_mac⟩ := by rw [← hB]; exact set_mac_trim _ _ _ hi
  have hA1 : A.type = 1 ∧ A.len = 6 ∧ 6 ≤ A.value.length := by
    rw [← hA]; simp [i1905_tlv_set_mac, I1905_TLV_AL_MAC, bytes_of_six _ ha, ha]
  have hB1 : B.type = 2 ∧ B.len = 6 ∧ 6 ≤ B.value.length := by
    rw [← hB]; simp [i1905_tlv_set_mac, I1905_TLV_MAC_ADDR, bytes_of_six _ hi, hi]
  have hfs : frame_size ⟨0x0000, (next_id ctx).1, 0, true, 2, [A, B]⟩ = 28 := by
    simp [frame_size, Cmdu.used, hA1.2.1, hB1.2.1]
  have key := roundtrip_frame ⟨0x0000, (next_id ctx).1, 0, true, 2, [A, B]⟩ m0
    (by
      refine ⟨by simp [I1905_MAX_TLVS], by simp, ?_⟩
      intro t ht
      simp only [List.take_succ_cons, List.take_zero, List.mem_cons, List.mem_singleton,
        List.not_mem_nil, or_false] at ht
      rcases ht with rfl | rfl
      · simp [hA1.2.1, hA1.2.2, I1905_MAX_TLV_VALUE]
      · simp [hB1.2.1, hB1.2.2, I1905_MAX_TLV_VALUE])
    (by
      refine ⟨by simp, next_id_lt ctx, by simp, ?_⟩
      intro t ht
      simp only [List.take_succ_cons, List.take_zero, List.mem_cons, List.mem_singleton,
        List.not_mem_nil, or_false] at ht
      rcases ht with rfl | rfl
      · simp [hA1.1, hA1.2.1]
      · simp [hB1.1, hB1.2.1])
    (by
      intro t ht
      simp only [Cmdu.used, List.take_succ_cons, List.take_zero, List.mem_cons,
        List.mem_singleton, List.not_mem_nil, or_false] at ht
      rcases ht with rfl | rfl
      · simp [hA1.1, I1905_TLV_END_OF_MESSAGE]
      · simp [hB1.1, I1905_TLV_END_OF_MESSAGE])
    (by rw [hfs]; decide)
  rw [hfs] at key
  refine ⟨key.1, ?_⟩
  rw [key.2]
  simp [Cmdu.used, hAt, hBt]

theorem topology_discovery_roundtrip_witness :
    cmdu_unpack ((Mem.replay (fun _ => 0)
        (cmdu_pack (i1905_send_topology_discovery
            ⟨3, 19050, Role.agent, [0x02, 0, 0, 0, 0, 0x10], none, 0, 7⟩
            ⟨true, fun d => d.length, fun _ => 0⟩ (some [0x02, 0, 0, 0, 0, 0x20])
            default default).cmdu
          I1905_MAX_FRAME_SIZE).2).first 28)
      = Ret.ok { message_type := 0x0000,
                 message_id := (next_id ⟨3, 19050, Role.agent, [0x02, 0, 0, 0, 0, 0x10], none, 0, 7⟩).1,
                 fragment_id := 0, last_fragment := true, tlv_count := 2,
                 tlvs := [⟨0x01, 6, [0x02, 0, 0, 0, 0, 0x10]⟩, ⟨0x02, 6, [0x02, 0, 0, 0, 0, 0x20]⟩] } :=
  (topology_discovery_roundtrip ⟨3, 19050, Role.agent, [0x02, 0, 0, 0, 0, 0x10], none, 0, 7⟩
    ⟨true, fun d => d.length, fun _ => 0⟩ [0x02, 0, 0, 0, 0, 0x20] default default (fun _ => 0)
    (by decide) (by decide)).2

/-! ## Inbound: `i1905_handle_readable` -/

theorem decoded_cons (d : List Nat) (ds : List (List Nat)) :
    decoded (d :: ds) =
      match cmdu_unpack (d.take I1905_MAX_FRAME_SIZE) with
      | Ret.ok c => c :: decoded ds
      | _ => decoded ds := by
  unfold decoded
  rw [List.filterMap_cons]
  cases cmdu_unpack (d.take I1905_MAX_FRAME_SIZE) <;> rfl

theorem frame_length_zero (d : List Nat) :
    (((d.take I1905_MAX_FRAME_SIZE).length : Nat) : Int) = 0 ↔ d = [] := by
  cases d with
  | nil => simp
  | cons x xs =>
    simp only [I1905_MAX_FRAME_SIZE, List.take_succ_cons, List.length_cons]
    constructor
    · intro h; omega
    · intro h; exact absurd h (by simp)

theorem handle_readable_cons (ctx : Ctx) (d : List Nat) (rest : List (List Nat)) :
    i1905_handle_readable ctx (d :: rest) =
      if d = [] then { ret := 0, ctx := ctx, queue := rest, calls := [] }
      else
        match cmdu_unpack (d.take I1905_MAX_FRAME_SIZE) with
        | Ret.ok cmdu =>
          { i1905_handle_readable ctx rest with
            calls := dispatch ctx cmdu ++ (i1905_handle_readable ctx rest).calls }
        | _ => i1905_handle_readable ctx rest := by
  rw [i1905_handle_readable]
  simp only [frame_length_zero]

/-- C11 (as the code has it). Drain mode of `i1905_handle_readable` on the queue of
pending datagrams: it takes datagrams off the queue up to and including the
first empty one (all of them when none is empty), calls a registered callback
exactly once, in queue order and with the decoded CMDU, for each datagram before
that point whose received bytes `cmdu_unpack` decodes, calls it for no other
datagram, and returns 0; on an empty queue it returns 0 with no call. -/
theorem handle_readable_drain (ctx : Ctx) (q : List (List Nat)) :
    (i1905_handle_readable ctx q).ret = 0 ∧
    (i1905_handle_readable ctx q).ctx = ctx ∧
    (i1905_handle_readable ctx q).queue = (q.dropWhile (fun d => !d.isEmpty)).drop 1 ∧
    (i1905_handle_readable ctx q).calls =
      (if ctx.cb.isSome then decoded (q.takeWhile (fun d => !d.isEmpty)) else []) ∧
    ((∀ d ∈ q, d ≠ []) →
      (i1905_handle_readable ctx q).queue = [] ∧
      (i1905_handle_readable ctx q).calls = (if ctx.cb.isSome then decoded q else [])) := by
  induction q with
  | nil => simp [i1905_handle_readable, decoded]
  | cons d rest ih =>
    obtain ⟨i1, i2, i3, i4, i5⟩ := ih
    rw [handle_readable_cons]
    by_cases hd : d = []
    · subst hd
      simp [decoded]
    · rw [if_neg hd]
      have hne : (!d.isEmpty) = true := by
        cases d with
        | nil => exact absurd rfl hd
        | cons x xs => rfl
      have hall : (∀ e ∈ d :: rest, e ≠ []) ↔ ∀ e ∈ rest, e ≠ [] := by
        simp [hd]
      have e1 : (d :: rest).dropWhile (fun d => !d.isEmpty)
          = rest.dropWhile (fun d => !d.isEmpty) := by
        simp [List.dropWhile_cons, hne]
      have e2 : (d :: rest).takeWhile (fun d => !d.isEmpty)
          = d :: rest.takeWhile (fun d => !d.isEmpty) := by
        simp [List.takeWhile_cons, hne]
      rw [e1, e2, decoded_cons, decoded_cons, hall]
      cases hu : cmdu_unpack (d.take I1905_MAX_FRAME_SIZE) with
      | ok c =>
        refine ⟨i1, i2, i3, ?_, fun h => ⟨(i5 h).1, ?_⟩⟩
        · show dispatch ctx c ++ (i1905_handle_readable ctx rest).calls = _
          rw [i4]
          unfold dispatch; split_ifs <;> simp
        · show dispatch ctx c ++ (i1905_handle_readable ctx rest).calls = _
          rw [(i5 h).2]
          unfold dispatch; split_ifs <;> simp
      | err => exact ⟨i1, i2, i3, i4, i5⟩
      | stuck => exact ⟨i1, i2, i3, i4, i5⟩

/-- C11 (counterexample). With an empty datagram at the head of the queue and a
valid 10-byte frame behind it, `i1905_handle_readable` returns 0 after the
empty datagram: the valid frame is left on the queue and the registered
callback is not called, although `cmdu_unpack` succeeds on that frame. -/
theorem handle_readable_stops_at_empty_datagram :
    cmdu_unpack [0, 0, 3, 0x12, 0x34, 0, 0x80, 0, 0, 0] = Ret.ok ⟨3, 0x1234, 0, true, 0, []⟩ ∧
    i1905_handle_readable ⟨3, 19050, Role.agent, [2, 0, 0, 0, 0, 0x10], some 1, 0, 7⟩
        [[], [0, 0, 3, 0x12, 0x34, 0, 0x80, 0, 0, 0]]
      = { ret := 0, ctx := ⟨3, 19050, Role.agent, [2, 0, 0, 0, 0, 0x10], some 1, 0, 7⟩,
          queue := [[0, 0, 3, 0x12, 0x34, 0, 0x80, 0, 0, 0]], calls := [] } := by
  decide

theorem handle_readable_drain_witness :
    (i1905_handle_readable ⟨3, 19050, Role.agent, [2, 0, 0, 0, 0, 0x10], some 1, 0, 7⟩
        [[0, 0, 3, 0x12, 0x34, 0, 0x80, 0, 0, 0], [1, 2, 3],
          [0, 0, 2, 0, 9, 0, 0x80, 1, 0, 1, 5, 0, 0, 0]]).calls
      = (if (some 1 : Option Nat).isSome then
          decoded [[0, 0, 3, 0x12, 0x34, 0, 0x80, 0, 0, 0], [1, 2, 3],
            [0, 0, 2, 0, 9, 0, 0x80, 1, 0, 1, 5, 0, 0, 0]]
         else []) :=
  ((handle_readable_drain ⟨3, 19050, Role.agent, [2, 0, 0, 0, 0, 0x10], some 1, 0, 7⟩
    [[0, 0, 3, 0x12, 0x34, 0, 0x80, 0, 0, 0], [1, 2, 3],
      [0, 0, 2, 0, 9, 0, 0x80, 1, 0, 1, 5, 0, 0, 0]]).2.2.2.2 (by decide)).2

/-! ## Inbound: `i1905_poll` -/

theorem poll_not_ready (ctx : Ctx) (rv : Int) (q : List (List Nat)) (h : rv ≤ 0) :
    i1905_poll ctx rv q = { ret := rv, ctx := ctx, queue := q, calls := [] } := by
  unfold i1905_poll
  rw [if_pos h]

theorem poll_empty (ctx : Ctx) (rv : Int) (h : 0 < rv) :
    i1905_poll ctx rv [] = { ret := -1, ctx := ctx, queue := [], calls := [] } := by
  unfold i1905_poll
  rw [if_neg (by omega)]

theorem poll_cons (ctx : Ctx) (rv : Int) (d : List Nat) (rest : List (List Nat)) (h : 0 < rv) :
    i1905_poll ctx rv (d :: rest) =
      match cmdu_unpack (d.take I1905_MAX_FRAME_SIZE) with
      | Ret.ok cmdu => { ret := 1, ctx := ctx, queue := rest, calls := dispatch ctx cmdu }
      | _ => { ret := -1, ctx := ctx, queue := rest, calls := [] } := by
  unfold i1905_poll
  rw [if_neg (by omega)]
  simp only []
  by_cases hd : d = []
  · subst hd
    simp [cmdu_unpack]
  · have hg : ¬ (((d.take I1905_MAX_FRAME_SIZE).length : Nat) : Int) ≤ 0 := by
      have := (frame_length_zero d).not.2 hd
      omega
    rw [if_neg hg]

theorem dispatch_length (ctx : Ctx) (c : Cmdu) : (dispatch ctx c).length ≤ 1 := by
  unfold dispatch; split_ifs <;> simp

/-- C18. Poll mode of `i1905_poll`, with the value of `select` and the queue of
pending datagrams as inputs: every call takes at most one datagram off the queue
and calls the callback at most once; it returns 0 without taking a datagram or
calling when `select` times out; it returns 1 if and only if a datagram was
received and `cmdu_unpack` succeeded on its received bytes, and then a
registered callback is called exactly once with the decoded CMDU; a datagram
that fails to decode is taken off the queue without a call and without a change
of the context. -/
theorem poll_post (ctx : Ctx) (rv : Int) (q : List (List Nat)) :
    (i1905_poll ctx rv q).calls.length ≤ 1 ∧
    ((i1905_poll ctx rv q).queue = q ∨ ∃ d, q = d :: (i1905_poll ctx rv q).queue) ∧
    (i1905_poll ctx rv q).ctx = ctx ∧
    (rv = 0 → i1905_poll ctx rv q = { ret := 0, ctx := ctx, queue := q, calls := [] }) ∧
    ((i1905_poll ctx rv q).ret = 1 ↔
      0 < rv ∧ ∃ d rest c, q = d :: rest ∧ cmdu_unpack (d.take I1905_MAX_FRAME_SIZE) = Ret.ok c) ∧
    (∀ d rest c, 0 < rv → q = d :: rest →
      cmdu_unpack (d.take I1905_MAX_FRAME_SIZE) = Ret.ok c →
      i1905_poll ctx rv q =
        { ret := 1, ctx := ctx, queue := rest, calls := if ctx.cb.isSome then [c] else [] }) ∧
    (∀ d rest, 0 < rv → q = d :: rest →
      cmdu_unpack (d.take I1905_MAX_FRAME_SIZE) = Ret.err →
      i1905_poll ctx rv q = { ret := -1, ctx := ctx, queue := rest, calls := [] }) := by
  by_cases hr : rv ≤ 0
  · rw [poll_not_ready ctx rv q hr]
    refine ⟨by simp, Or.inl rfl, rfl, fun h => by rw [h], ?_, ?_, ?_⟩
    · constructor
      · intro h; simp only [] at h; omega
      · intro h; omega
    · intro d rest c h; omega
    · intro d rest h; omega
  · have hpos : 0 < rv := by omega
    cases q with
    | nil =>
      rw [poll_empty ctx rv hpos]
      refine ⟨by simp, Or.inl rfl, rfl, fun h => by omega, ?_, ?_, ?_⟩
      · constructor
        · intro h; simp at h
        · rintro ⟨-, d, rest, c, h, -⟩; simp at h
      · intro d rest c _ h; simp at h
      · intro d rest _ h; simp at h
    | cons d rest =>
      rw [poll_cons ctx rv d rest hpos]
      cases hu : cmdu_unpack (d.take I1905_MAX_FRAME_SIZE) with
      | ok c =>
        refine ⟨dispatch_length ctx c, Or.inr ⟨d, rfl⟩, rfl, fun h => by omega, ?_, ?_, ?_⟩
        · exact ⟨fun _ => ⟨hpos, d, rest, c, rfl, hu⟩, fun _ => rfl⟩
        · intro d2 rest2 c2 _ h h2
          injection h with h3 h4
          subst h3; subst h4
          rw [hu] at h2
          injection h2 with h5
          subst h5
          rfl
        · intro d2 rest2 _ h h2
          injection h with h3 h4
          subst h3
          rw [hu] at h2
          exact absurd h2 (by simp)
      | err =>
        refine ⟨by simp, Or.inr ⟨d, rfl⟩, rfl, fun h => by omega, ?_, ?_, ?_⟩
        · constructor
          · intro h; simp at h
          · rintro ⟨-, d2, rest2, c2, h, h2⟩
            injection h with h3 h4
            subst h3
            rw [hu] at h2
            exact absurd h2 (by simp)
        · intro d2 rest2 c2 _ h h2
          injection h with h3 h4
          subst h3
          rw [hu] at h2
          exact absurd h2 (by simp)
        · intro d2 rest2 _ h _
          injection h with h3 h4
          subst h4
          rfl
      | stuck => exact absurd hu (cmdu_unpack_not_stuck _)

theorem poll_post_witness :
    i1905_poll ⟨3, 19050, Role.agent, [2, 0, 0, 0, 0, 0x10], some 1, 0, 7⟩ 1
        [[0, 0, 3, 0x12, 0x34, 0, 0x80, 0, 0, 0], [1, 2, 3]]
      = { ret := 1, ctx := ⟨3, 19050, Role.agent, [2, 0, 0, 0, 0, 0x10], some 1, 0, 7⟩,
          queue := [[1, 2, 3]],
          calls := if (some 1 : Option Nat).isSome then [⟨3, 0x1234, 0, true, 0, []⟩] else [] } :=
  (poll_post ⟨3, 19050, Role.agent, [2, 0, 0, 0, 0, 0x10], some 1, 0, 7⟩ 1
    [[0, 0, 3, 0x12, 0x34, 0, 0x80, 0, 0, 0], [1, 2, 3]]).2.2.2.2.2.1
    [0, 0, 3, 0x12, 0x34, 0, 0x80, 0, 0, 0] [[1, 2, 3]] ⟨3, 0x1234, 0, true, 0, []⟩
    (by decide) rfl (by decide)

/-! ## The decoder with checked accesses -/

theorem rd_eq (buf : List Nat) (i : Nat) (h : i < buf.length) :
    rd buf i = some (buf.getD i 0) := by
  unfold rd; rw [if_pos h]

theorem memcpy_chk_eq (buf : List Nat) (pos : Nat) :
    ∀ (n k : Nat), k + n ≤ I1905_MAX_TLV_VALUE → pos + k + n ≤ buf.length →
      memcpy_chk buf pos k n = some ((buf.drop (pos + k)).take n) := by
  intro n
  induction n with
  | zero => intro k _ _; simp [memcpy_chk]
  | succ n ih =>
    intro k h1 h2
    rw [memcpy_chk, if_pos (by omega), rd_eq buf (pos + k) (by omega),
      ih (k + 1) (by omega) (by omega)]
    simp only []
    rw [List.drop_eq_getElem_cons (show pos + k < buf.length by omega), List.take_succ_cons,
      List.getD_eq_getElem _ _ (show pos + k < buf.length by omega)]
    rfl

theorem unpack_loop_chk_eq (buf : List Nat) :
    ∀ (fuel pos : Nat) (out : Cmdu),
      unpack_loop_chk buf fuel pos out = some (unpack_loop buf fuel pos out) := by
  intro fuel
  induction fuel with
  | zero => intro pos out; rfl
  | succ a ih =>
    intro pos out
    rw [unpack_loop_chk, unpack_loop]
    by_cases hg : pos + 3 ≤ buf.length
    · simp only [if_pos hg, rd_eq buf pos (by omega), rd_eq buf (pos + 1) (by omega),
        rd_eq buf (pos + 2) (by omega)]
      split_ifs with h0 h1 h2 h3
      · rfl
      · rfl
      · rfl
      · rfl
      · have hs : slot_chk out.tlv_count = some out.tlv_count := by
          unfold slot_chk; rw [if_pos (by omega)]
        have hm := memcpy_chk_eq buf (pos + 3)
          (be16 (buf.getD (pos + 1) 0) (buf.getD (pos + 2) 0)) 0 (by omega) (by omega)
        rw [hs, hm]
        exact ih _ _
    · simp only [if_neg hg]

theorem unpack_header_chk_eq (buf : List Nat) (h : 7 ≤ buf.length) :
    unpack_header_chk buf = some (unpack_header buf) := by
  unfold unpack_header_chk unpack_header
  simp only [rd_eq buf 1 (by omega), rd_eq buf 2 (by omega), rd_eq buf 3 (by omega),
    rd_eq buf 4 (by omega), rd_eq buf 5 (by omega), rd_eq buf 6 (by omega)]

/-- C22. `cmdu_unpack` is bounds-safe on arbitrary input: in the embedding with
checked accesses, where a read of the buffer at an index not below its length, a
TLV slot with an index not below 16 and a value byte at an offset not below 1024
yield `none`, the decoder never yields `none`, for any buffer, and its outcome is
the outcome of `cmdu_unpack`. -/
theorem cmdu_unpack_bounds_safe (buf : List Nat) :
    cmdu_unpack_chk buf = some (cmdu_unpack buf) ∧ cmdu_unpack_chk buf ≠ none := by
  have h : cmdu_unpack_chk buf = some (cmdu_unpack buf) := by
    unfold cmdu_unpack_chk cmdu_unpack
    by_cases h7 : buf.length < 7
    · simp only [if_pos h7]
    · simp only [if_neg h7, unpack_header_chk_eq buf (by omega)]
      exact unpack_loop_chk_eq buf _ _ _
  exact ⟨h, by rw [h]; simp⟩

/-- The checked accesses do fail outside their arrays: a read at the length of
the buffer, slot 16, a copy that runs past the buffer, and a store at offset
1024 of a value. -/
theorem checked_accesses_fail_outside :
    rd [1, 2, 3] 3 = none ∧ slot_chk 16 = none ∧ memcpy_chk [1, 2, 3] 1 0 3 = none ∧
    memcpy_chk [1, 2, 3] 0 1024 1 = none := by
  decide

/-! ## What the decoder ignores -/

theorem length_seven (l : List Nat) (h : l.length = 7) :
    ∃ a0 a1 a2 a3 a4 a5 a6, l = [a0, a1, a2, a3, a4, a5, a6] := by
  match l, h with
  | [a0, a1, a2, a3, a4, a5, a6], _ => exact ⟨a0, a1, a2, a3, a4, a5, a6, rfl⟩

theorem and_0x80_of_div (x y : Nat) (h : x / 128 = y / 128) :
    ((x &&& 0x80) != 0) = ((y &&& 0x80) != 0) := by
  rw [and_0x80_eq_testBit, and_0x80_eq_testBit, Nat.testBit_to_div_mod, Nat.testBit_to_div_mod]
  norm_num
  rw [h]

theorem unpack_header_same (h1 h2 : List Nat) (hh : SameHeader h1 h2) :
    unpack_header h1 = unpack_header h2 := by
  obtain ⟨l1, l2, hmid, hfl⟩ := hh
  obtain ⟨a0, a1, a2, a3, a4, a5, a6, rfl⟩ := length_seven h1 l1
  obtain ⟨b0, b1, b2, b3, b4, b5, b6, rfl⟩ := length_seven h2 l2
  simp only [List.drop_succ_cons, List.drop_zero, List.take_succ_cons, List.take_zero,
    List.cons.injEq, and_true] at hmid
  obtain ⟨e1, e2, e3, e4, e5⟩ := hmid
  subst e1 e2 e3 e4 e5
  have hfl2 : a6 / 128 = b6 / 128 := by simpa [List.getD] using hfl
  have := and_0x80_of_div a6 b6 hfl2
  simp [unpack_header, List.getD, this]

/-- The loop of `cmdu_unpack` reads a buffer only from the cursor on. -/
theorem unpack_loop_same_tail (b1 b2 : List Nat) (hlen : b1.length = b2.length)
    (hd : b1.drop 7 = b2.drop 7) :
    ∀ (fuel pos : Nat) (out : Cmdu), 7 ≤ pos →
      unpack_loop b1 fuel pos out = unpack_loop b2 fuel pos out := by
  have hdrop : ∀ i, 7 ≤ i → b1.drop i = b2.drop i := by
    intro i hi
    have e : i = 7 + (i - 7) := by omega
    rw [e, ← List.drop_drop, ← List.drop_drop, hd]
  have hget : ∀ i, 7 ≤ i → b1.getD i 0 = b2.getD i 0 := by
    intro i hi
    have e1 := getD_of_drop b1 i 0 _ rfl
    have e2 := getD_of_drop b2 i 0 _ rfl
    rw [Nat.add_zero] at e1 e2
    rw [e1, e2, hdrop i hi]
  intro fuel
  induction fuel with
  | zero => intro pos out _; rfl
  | succ a ih =>
    intro pos out hp
    rw [unpack_loop, unpack_loop]
    simp only [hlen, hget pos hp, hget (pos + 1) (by omega), hget (pos + 2) (by omega),
      hdrop (pos + 3) (by omega)]
    split_ifs
    · rfl
    · rfl
    · rfl
    · rfl
    · exact ih _ _ (by omega)
    · rfl

/-- The decoder on a buffer whose records are followed by an end-of-message
record, whatever the caps say about the records. -/
theorem cmdu_unpack_eom_cases (buf hdr : List Nat) (ts : List Tlv) (a b : Nat)
    (tail : List Nat) (h : Layout buf hdr ts (I1905_TLV_END_OF_MESSAGE :: a :: b :: tail)) :
    cmdu_unpack buf =
      if ts.length ≤ I1905_MAX_TLVS ∧ ∀ t ∈ ts, t.len ≤ I1905_MAX_TLV_VALUE then
        Ret.ok { unpack_header hdr with tlv_count := ts.length, tlvs := ts }
      else Ret.err := by
  rw [cmdu_unpack_layout h]
  split_ifs with hc
  · exact (unpack_loop_head _ _ _ _ _ a b tail h.enough h.drop).1 rfl
  · rfl

/-- The decoder on a buffer whose records are followed by a byte 0 in the place
of a record type: the outcome does not depend on what follows that byte. -/
theorem cmdu_unpack_from_eom (buf hdr : List Nat) (ts : List Tlv) (x : List Nat)
    (h : Layout buf hdr ts (I1905_TLV_END_OF_MESSAGE :: x)) :
    cmdu_unpack buf =
      if ts.length ≤ I1905_MAX_TLVS ∧ ∀ t ∈ ts, t.len ≤ I1905_MAX_TLV_VALUE then
        Ret.ok { unpack_header hdr with tlv_count := ts.length, tlvs := ts }
      else Ret.err := by
  match x, h with
  | a :: b :: tail, h => exact cmdu_unpack_eom_cases buf hdr ts a b tail h
  | [a], h =>
    rw [cmdu_unpack_layout h]
    split_ifs with hc
    · rw [unpack_loop_step _ _ _ _ h.enough, if_neg]
      have := h.length
      simp only [List.length_cons, List.length_nil] at this
      omega
    · rfl
  | [], h =>
    rw [cmdu_unpack_layout h]
    split_ifs with hc
    · rw [unpack_loop_step _ _ _ _ h.enough, if_neg]
      have := h.length
      simp only [List.length_cons, List.length_nil] at this
      omega
    · rfl

/-- C21. `cmdu_unpack` ignores what the format leaves unused: two buffers of at
least 7 bytes whose headers differ at most in the reserved byte 0 and in the low
7 bits of the flags byte 6, and whose bytes behind the header are either the
same or the same records followed by the type byte 0 of an end-of-message
record and then any bytes (its two length bytes and the bytes after it), give
the same outcome: the same success or failure and the same decoded CMDU. -/
theorem cmdu_unpack_ignores_unused (h1 h2 r1 r2 : List Nat) (hh : SameHeader h1 h2)
    (hr : r1 = r2 ∨ ∃ (ts : List Tlv) (x1 x2 : List Nat), (∀ t ∈ ts, t.record) ∧
      r1 = (ts.map tlv_wire).flatten ++ I1905_TLV_END_OF_MESSAGE :: x1 ∧
      r2 = (ts.map tlv_wire).flatten ++ I1905_TLV_END_OF_MESSAGE :: x2) :
    cmdu_unpack (h1 ++ r1) = cmdu_unpack (h2 ++ r2) := by
  have hu := unpack_header_same h1 h2 hh
  obtain ⟨l1, l2, -, -⟩ := hh
  rcases hr with rfl | ⟨ts, x1, x2, hrec, rfl, rfl⟩
  · unfold cmdu_unpack
    have hl : (h1 ++ r1).length = (h2 ++ r1).length := by simp [l1, l2]
    have hd : (h1 ++ r1).drop 7 = (h2 ++ r1).drop 7 := by
      rw [← l1, List.drop_left, l1, ← l2, List.drop_left]
    rw [hl, unpack_header_append h1 r1 l1, unpack_header_append h2 r1 l2, hu]
    split_ifs
    · rfl
    · exact unpack_loop_same_tail _ _ hl hd _ _ _ (Nat.le_refl 7)
  · rw [cmdu_unpack_from_eom _ h1 ts x1 ⟨l1, hrec, by simp⟩,
      cmdu_unpack_from_eom _ h2 ts x2 ⟨l2, hrec, by simp⟩, hu]

theorem cmdu_unpack_ignores_unused_witness :
    cmdu_unpack ([0, 0, 3, 0x12, 0x34, 0, 0x80] ++ [1, 0, 2, 9, 8, 0, 0, 0])
      = cmdu_unpack ([0xFF, 0, 3, 0x12, 0x34, 0, 0xFF] ++ [1, 0, 2, 9, 8, 0, 7, 7, 1, 2, 3]) ∧
    cmdu_unpack ([0, 0, 3, 0x12, 0x34, 0, 0x80] ++ [1, 0, 2, 9])
      = cmdu_unpack ([0xFF, 0, 3, 0x12, 0x34, 0, 0xFF] ++ [1, 0, 2, 9]) :=
  ⟨cmdu_unpack_ignores_unused [0, 0, 3, 0x12, 0x34, 0, 0x80] [0xFF, 0, 3, 0x12, 0x34, 0, 0xFF]
      [1, 0, 2, 9, 8, 0, 0, 0] [1, 0, 2, 9, 8, 0, 7, 7, 1, 2, 3] (by decide)
      (Or.inr ⟨[⟨1, 2, [9, 8]⟩], [0, 0], [7, 7, 1, 2, 3], by decide, by decide, by decide⟩),
    cmdu_unpack_ignores_unused [0, 0, 3, 0x12, 0x34, 0, 0x80] [0xFF, 0, 3, 0x12, 0x34, 0, 0xFF]
      [1, 0, 2, 9] [1, 0, 2, 9] (by decide) (Or.inl rfl)⟩

/-! ## The context after `send_cmdu` -/

theorem next_id_frame (ctx : Ctx) :
    (next_id ctx).2 = { ctx with next_message_id := (next_id ctx).1 } := by
  unfold next_id
  simp only []
  split_ifs <;> rfl

theorem send_cmdu_ret_fail (ctx : Ctx) (env : SendEnv) (cmdu : Cmdu)
    (h : (cmdu.tlv_count ≤ cmdu.tlvs.length ∧ frame_size cmdu > I1905_MAX_FRAME_SIZE) ∨
      env.inet_aton_ok = false) :
    (send_cmdu ctx env cmdu).ret = -1 ∧ (send_cmdu ctx env cmdu).sent = [] := by
  have hret := fun hs => cmdu_pack_ret { cmdu with message_id := (next_id ctx).1 }
    I1905_MAX_FRAME_SIZE hs
  rw [frame_size_message_id] at hret
  unfold send_cmdu
  rcases env with ⟨dst_ok, sendto, frame0⟩
  simp only [] at h hret ⊢
  generalize cmdu_pack { cmdu with message_id := (next_id ctx).1 } I1905_MAX_FRAME_SIZE = p
    at hret ⊢
  rcases p with ⟨r, log⟩
  simp only [] at hret ⊢
  cases r with
  | none => exact ⟨rfl, rfl⟩
  | some n =>
    rcases h with ⟨hs, hf⟩ | hd
    · have := hret hs
      rw [if_pos hf] at this
      exact absurd this (by simp)
    · subst hd
      exact ⟨rfl, rfl⟩

/-- C23. A failed send still consumes a message id: for every context and CMDU,
`send_cmdu` leaves the context with the counter advanced by one `next_id` step
and every other field (socket, port, role, local identity, callback, handler
state) as it was, whether it succeeds or fails; in particular when the encoding
overflows 1600 bytes or the destination does not parse, where it returns -1 and
sends nothing. -/
theorem send_cmdu_consumes_id (ctx : Ctx) (env : SendEnv) (cmdu : Cmdu) :
    (send_cmdu ctx env cmdu).ctx = { ctx with next_message_id := (next_id ctx).1 } ∧
    (ctx.next_message_id < 65536 →
      (send_cmdu ctx env cmdu).ctx.next_message_id
        = (if ctx.next_message_id < 65535 then ctx.next_message_id + 1 else 1)) ∧
    ((cmdu.tlv_count ≤ cmdu.tlvs.length ∧ frame_size cmdu > I1905_MAX_FRAME_SIZE) ∨
        env.inet_aton_ok = false →
      (send_cmdu ctx env cmdu).ret = -1 ∧ (send_cmdu ctx env cmdu).sent = [] ∧
      (send_cmdu ctx env cmdu).ctx = { ctx with next_message_id := (next_id ctx).1 }) := by
  have h1 : (send_cmdu ctx env cmdu).ctx = { ctx with next_message_id := (next_id ctx).1 } := by
    rw [(send_cmdu_ctx ctx env cmdu).1, next_id_frame]
  refine ⟨h1, ?_, fun h => ⟨(send_cmdu_ret_fail ctx env cmdu h).1,
    (send_cmdu_ret_fail ctx env cmdu h).2, h1⟩⟩
  intro hlt
  rw [h1, next_id_eq ctx hlt]
  rfl

theorem send_cmdu_consumes_id_witness :
    (send_cmdu ⟨3, 19050, Role.agent, [2, 0, 0, 0, 0, 0x10], some 1, 5, 7⟩
        ⟨false, fun d => d.length, fun _ => 0⟩ (build_cmdu_common 2)).ret = -1 ∧
    (send_cmdu ⟨3, 19050, Role.agent, [2, 0, 0, 0, 0, 0x10], some 1, 5, 7⟩
        ⟨false, fun d => d.length, fun _ => 0⟩ (build_cmdu_common 2)).sent = [] ∧
    (send_cmdu ⟨3, 19050, Role.agent, [2, 0, 0, 0, 0, 0x10], some 1, 5, 7⟩
        ⟨false, fun d => d.length, fun _ => 0⟩ (build_cmdu_common 2)).ctx
      = { (⟨3, 19050, Role.agent, [2, 0, 0, 0, 0, 0x10], some 1, 5, 7⟩ : Ctx) with
          next_message_id :=
            (next_id ⟨3, 19050, Role.agent, [2, 0, 0, 0, 0, 0x10], some 1, 5, 7⟩).1 } :=
  (send_cmdu_consumes_id ⟨3, 19050, Role.agent, [2, 0, 0, 0, 0, 0x10], some 1, 5, 7⟩
    ⟨false, fun d => d.length, fun _ => 0⟩ (build_cmdu_common 2)).2.2 (Or.inr rfl)

end Ieee1905
